import Mathlib

/-!
Verification of the mdp Markdown-processing core: a shallow embedding of the
token model (src/models/token.rs), the inline/line parsers
(src/markdown/parsers.rs, src/markdown/tokenize.rs), the section builder
(src/markdown/sections.rs) and the task command helpers
(src/commands/task/command.rs), together with theorems settling the claims
about them.

Conventions of the embedding:
* Rust string slices are embedded as `List Char` (parsers) or `String`
  (token payloads); byte indices become character indices.
* `chrono::NaiveDate` is embedded as a year/month/day record `Date` with the
  civil-calendar day count used for date subtraction.
* Fallible parsers return a `POut` value: `done remaining value`,
  `fail kind`, or `panicked` (a Rust `panic!` / out-of-bounds abort).
* Functions from external crates (iso8601, email_address_parser, urlocator)
  are not part of the repository; they are modelled from the spec and marked
  `Modelled from the spec:` in their doc comments.
-/

set_option maxRecDepth 10000
set_option maxHeartbeats 1000000

/-- Calendar date, embedding `chrono::NaiveDate` as a year/month/day record. -/
structure Date where
  year : Int
  month : Nat
  day : Nat
deriving DecidableEq

/-- Leap-year predicate of the proleptic Gregorian calendar. -/
def Date.isLeap (y : Int) : Bool :=
  y % 4 == 0 && (y % 100 != 0 || y % 400 == 0)

/-- Number of days of a month (1-12) in year `y`. -/
def Date.daysInMonth (y : Int) (m : Nat) : Nat :=
  if m = 2 then (if Date.isLeap y then 29 else 28)
  else if m = 4 ∨ m = 6 ∨ m = 9 ∨ m = 11 then 30
  else 31

/-- Day count of a civil date (days since 1970-01-01, Hinnant's algorithm);
embeds the day-number arithmetic behind `NaiveDate` subtraction. -/
def Date.toDays (dt : Date) : Int :=
  let y : Int := if dt.month ≤ 2 then dt.year - 1 else dt.year
  let m : Int := dt.month
  let d : Int := dt.day
  let era : Int := (if y ≥ 0 then y else y - 399) / 400
  let yoe : Int := y - era * 400
  let mp : Int := (m + 9) % 12
  let doy : Int := (153 * mp + 2) / 5 + d - 1
  let doe : Int := yoe * 365 + yoe / 4 - yoe / 100 + doy
  era * 146097 + doe - 719468

/-- Inverse of `Date.toDays` (Hinnant's civil_from_days). -/
def Date.fromDays (z0 : Int) : Date :=
  let z : Int := z0 + 719468
  let era : Int := (if z ≥ 0 then z else z - 146096) / 146097
  let doe : Int := z - era * 146097
  let yoe : Int := (doe - doe / 1460 + doe / 36524 - doe / 146096) / 365
  let y : Int := yoe + era * 400
  let doy : Int := doe - (365 * yoe + yoe / 4 - yoe / 100)
  let mp : Int := (5 * doy + 2) / 153
  let d : Int := doy - (153 * mp + 2) / 5 + 1
  let m : Int := if mp < 10 then mp + 3 else mp - 9
  { year := if m ≤ 2 then y + 1 else y, month := m.toNat, day := d.toNat }

/-- Embedding of `NaiveDate::from_ymd_opt`: `none` on invalid calendar dates. -/
def Date.fromYmdOpt (y : Int) (m d : Nat) : Option Date :=
  if 1 ≤ m ∧ m ≤ 12 ∧ 1 ≤ d ∧ d ≤ Date.daysInMonth y m then
    some { year := y, month := m, day := d }
  else none

/-- Embedding of `NaiveDate::from_yo_opt` (ordinal day of year). -/
def Date.fromYoOpt (y : Int) (ddd : Nat) : Option Date :=
  let last : Nat := if Date.isLeap y then 366 else 365
  if 1 ≤ ddd ∧ ddd ≤ last then
    some (Date.fromDays (Date.toDays { year := y, month := 1, day := 1 } + (ddd - 1)))
  else none

/-- Weekday as days-from-Monday (0 = Monday .. 6 = Sunday), as in `chrono`. -/
def Date.weekdayFromMonday (dt : Date) : Int :=
  (dt.toDays + 3) % 7

/-- Number of ISO weeks in an ISO week-year. -/
def Date.isoWeeksInYear (y : Int) : Nat :=
  let jan1 : Date := { year := y, month := 1, day := 1 }
  let wd := jan1.weekdayFromMonday
  if wd = 3 ∨ (Date.isLeap y ∧ wd = 2) then 53 else 52

/-- Embedding of `NaiveDate::from_isoywd_opt`: ISO week date, where the
weekday argument is days-from-Monday (0 = Monday). -/
def Date.fromIsoywdOpt (y : Int) (w : Nat) (wd : Nat) : Option Date :=
  if 1 ≤ w ∧ w ≤ Date.isoWeeksInYear y then
    let jan4 : Date := { year := y, month := 1, day := 4 }
    let week1Monday : Int := jan4.toDays - jan4.weekdayFromMonday
    some (Date.fromDays (week1Monday + ((w : Int) - 1) * 7 + (wd : Int)))
  else none

/-- Left-pad the decimal rendering of `n` with zeros to width `w`. -/
def padNat (w : Nat) (n : Nat) : String :=
  let s := toString n
  if s.length < w then String.mk (List.replicate (w - s.length) '0') ++ s else s

/-- Rendering of a date in `%Y-%m-%d` format, as `chrono` formats it. -/
def Date.format (dt : Date) : String :=
  (if dt.year < 0 then "-" ++ padNat 4 (- dt.year).toNat else padNat 4 dt.year.toNat)
    ++ "-" ++ padNat 2 dt.month ++ "-" ++ padNat 2 dt.day

/-- Embedding of `TaskStatus` (src/models/token.rs). -/
inductive TaskStatus where
  | todo
  | todoUntil (d : Date)
  | doing
  | review
  | done
deriving DecidableEq

/-- Rendering of a task status (`impl From<&TaskStatus> for String`). -/
def TaskStatus.render : TaskStatus → String
  | .todo => "TODO"
  | .todoUntil d => "TODO UNTIL " ++ d.format
  | .doing => "DOING"
  | .review => "REVIEW"
  | .done => "DONE"

/-- Embedding of the token sum type `Token` (src/models/token.rs).  String
payloads are owned copies of the borrowed slices. -/
inductive Tok where
  | blank
  | hRule
  | newline
  | blockRef (s : String)
  | email (s : String)
  | hashtag (s : String)
  | latex (s : String)
  | link (s : String)
  | text (s : String)
  | rawHyperlink (s : String)
  | singleBacktick (s : String)
  | tag (s : String)
  | tripleBacktick (s : String)
  | date (d : Date)
  | blockQuote (ts : List Tok)
  | bold (ts : List Tok)
  | highlight (ts : List Tok)
  | italic (ts : List Tok)
  | strike (ts : List Tok)
  | headingH1 (ts : List Tok)
  | headingH2 (ts : List Tok)
  | headingH3 (ts : List Tok)
  | headingH4 (ts : List Tok)
  | attr (name : String) (value : List Tok)
  | image (alt : String) (url : String)
  | markdownInternalLink (label : String) (href : String)
  | markdownExternalLink (title : String) (url : String)
  | task (content : List Tok) (status : TaskStatus)

/-- Embedding of the `TokenType` case-tag enum (src/models/token.rs). -/
inductive TokenType where
  | blankline
  | hRule
  | newline
  | blockRef
  | email
  | hashtag
  | latex
  | link
  | text
  | rawHyperlink
  | singleBacktick
  | tag
  | tripleBacktick
  | date
  | blockQuote
  | bold
  | highlight
  | italic
  | strike
  | headingH1
  | headingH2
  | headingH3
  | headingH4
  | attr
  | image
  | markdownInternalLink
  | markdownExternalLink
  | task
deriving DecidableEq

/-- Embedding of `Token::token_type`.  Note the source maps both
`MarkdownExternalLink` and `MarkdownInternalLink` to
`TokenType::MarkdownInternalLink`; this quirk is preserved. -/
def Tok.tokenType : Tok → TokenType
  | .blank => .blankline
  | .hRule => .hRule
  | .newline => .newline
  | .blockRef _ => .blockRef
  | .email _ => .email
  | .hashtag _ => .hashtag
  | .latex _ => .latex
  | .link _ => .link
  | .rawHyperlink _ => .rawHyperlink
  | .singleBacktick _ => .singleBacktick
  | .tag _ => .tag
  | .text _ => .text
  | .tripleBacktick _ => .tripleBacktick
  | .date _ => .date
  | .blockQuote _ => .blockQuote
  | .bold _ => .bold
  | .highlight _ => .highlight
  | .italic _ => .italic
  | .strike _ => .strike
  | .headingH1 _ => .headingH1
  | .headingH2 _ => .headingH2
  | .headingH3 _ => .headingH3
  | .headingH4 _ => .headingH4
  | .attr _ _ => .attr
  | .image _ _ => .image
  | .markdownExternalLink _ _ => .markdownInternalLink
  | .markdownInternalLink _ _ => .markdownInternalLink
  | .task _ _ => .task

mutual

/-- Embedding of `Token::to_markdown_string`. -/
def Tok.toMarkdownString : Tok → String
  | .blank => ""
  | .hRule => "---"
  | .newline => "\n"
  | .blockRef s => "((" ++ s ++ "))"
  | .email s => s
  | .hashtag s => "#" ++ s
  | .latex s => "$$" ++ s ++ "$$"
  | .link s => "[[" ++ s ++ "]]"
  | .rawHyperlink s => s
  | .singleBacktick s => "`" ++ s ++ "`"
  | .tag s => "@" ++ s
  | .text s => s
  | .tripleBacktick s => "```" ++ s ++ "```"
  | .date d => d.format
  | .blockQuote ts => "> " ++ Tok.childTokensAsMarkdownString ts
  | .bold ts => "**" ++ Tok.childTokensAsMarkdownString ts ++ "**"
  | .highlight ts => "^^" ++ Tok.childTokensAsMarkdownString ts ++ "^^"
  | .italic ts => "*" ++ Tok.childTokensAsMarkdownString ts ++ "*"
  | .strike ts => "~~" ++ Tok.childTokensAsMarkdownString ts ++ "~~"
  | .headingH1 ts => "# " ++ Tok.childTokensAsMarkdownString ts
  | .headingH2 ts => "## " ++ Tok.childTokensAsMarkdownString ts
  | .headingH3 ts => "### " ++ Tok.childTokensAsMarkdownString ts
  | .headingH4 ts => "#### " ++ Tok.childTokensAsMarkdownString ts
  | .attr name value => name ++ "::" ++ Tok.childTokensAsMarkdownString value
  | .image alt url => "![" ++ alt ++ "](" ++ url ++ ")"
  | .markdownExternalLink title url => "[" ++ title ++ "](" ++ url ++ ")"
  | .markdownInternalLink label href => "[" ++ label ++ "](" ++ href ++ ")"
  | .task content status => status.render ++ ": " ++ Tok.childTokensAsMarkdownString content

/-- Embedding of `Token::child_tokens_as_markdown_string`. -/
def Tok.childTokensAsMarkdownString : List Tok → String
  | [] => ""
  | t :: ts => t.toMarkdownString ++ Tok.childTokensAsMarkdownString ts

end

mutual

/-- Structural equality on tokens, embedding the derived `PartialEq` of
`Token`. -/
def Tok.beq : Tok → Tok → Bool
  | .blank, .blank => true
  | .hRule, .hRule => true
  | .newline, .newline => true
  | .blockRef s, .blockRef t => s == t
  | .email s, .email t => s == t
  | .hashtag s, .hashtag t => s == t
  | .latex s, .latex t => s == t
  | .link s, .link t => s == t
  | .text s, .text t => s == t
  | .rawHyperlink s, .rawHyperlink t => s == t
  | .singleBacktick s, .singleBacktick t => s == t
  | .tag s, .tag t => s == t
  | .tripleBacktick s, .tripleBacktick t => s == t
  | .date d, .date e => d == e
  | .blockQuote ts, .blockQuote us => Tok.beqList ts us
  | .bold ts, .bold us => Tok.beqList ts us
  | .highlight ts, .highlight us => Tok.beqList ts us
  | .italic ts, .italic us => Tok.beqList ts us
  | .strike ts, .strike us => Tok.beqList ts us
  | .headingH1 ts, .headingH1 us => Tok.beqList ts us
  | .headingH2 ts, .headingH2 us => Tok.beqList ts us
  | .headingH3 ts, .headingH3 us => Tok.beqList ts us
  | .headingH4 ts, .headingH4 us => Tok.beqList ts us
  | .attr n v, .attr m w => n == m && Tok.beqList v w
  | .image a u, .image b v => a == b && u == v
  | .markdownInternalLink a u, .markdownInternalLink b v => a == b && u == v
  | .markdownExternalLink a u, .markdownExternalLink b v => a == b && u == v
  | .task c s, .task d t => Tok.beqList c d && s == t
  | _, _ => false

/-- Structural equality on token lists. -/
def Tok.beqList : List Tok → List Tok → Bool
  | [], [] => true
  | t :: ts, u :: us => Tok.beq t u && Tok.beqList ts us
  | _, _ => false

end

mutual

/-- Embedding of `Token::contains` (src/models/token.rs, lines 258-283).
For the child-bearing cases the source scans the child list, testing each
child for equality with the needle or a recursive hit; for every other case
it compares the whole token with the needle. -/
def Tok.contains (a : Tok) (token : Tok) : Bool :=
  match a with
  | .blockQuote toks => Tok.containsList toks token
  | .bold toks => Tok.containsList toks token
  | .highlight toks => Tok.containsList toks token
  | .italic toks => Tok.containsList toks token
  | .strike toks => Tok.containsList toks token
  | .headingH1 toks => Tok.containsList toks token
  | .headingH2 toks => Tok.containsList toks token
  | .headingH3 toks => Tok.containsList toks token
  | .headingH4 toks => Tok.containsList toks token
  | .attr _ toks => Tok.containsList toks token
  | .task toks _ => Tok.containsList toks token
  | t => Tok.beq t token

/-- The child-scanning loop of `Token::contains`. -/
def Tok.containsList (ts : List Tok) (token : Tok) : Bool :=
  match ts with
  | [] => false
  | t :: rest => (Tok.beq t token || t.contains token) || Tok.containsList rest token

end

/-- Whether a token is one of the child-bearing cases of `Token::contains`
(the container variants plus `Attribute` and `Task`). -/
def Tok.isChildBearing : Tok → Bool
  | .blockQuote _ => true
  | .bold _ => true
  | .highlight _ => true
  | .italic _ => true
  | .strike _ => true
  | .headingH1 _ => true
  | .headingH2 _ => true
  | .headingH3 _ => true
  | .headingH4 _ => true
  | .attr _ _ => true
  | .task _ _ => true
  | _ => false

/-- Direct child tokens of a token: the payload lists of the container
variants plus `Attribute.value` and `Task.content`, else empty. -/
def Tok.childToks : Tok → List Tok
  | .blockQuote ts => ts
  | .bold ts => ts
  | .highlight ts => ts
  | .italic ts => ts
  | .strike ts => ts
  | .headingH1 ts => ts
  | .headingH2 ts => ts
  | .headingH3 ts => ts
  | .headingH4 ts => ts
  | .attr _ ts => ts
  | .task ts _ => ts
  | _ => []

mutual

/-- All direct and indirect child tokens of a token (specification-side
descendant list, written against the claim's notion of membership). -/
def Tok.descList : Tok → List Tok
  | .blockQuote ts => Tok.descListL ts
  | .bold ts => Tok.descListL ts
  | .highlight ts => Tok.descListL ts
  | .italic ts => Tok.descListL ts
  | .strike ts => Tok.descListL ts
  | .headingH1 ts => Tok.descListL ts
  | .headingH2 ts => Tok.descListL ts
  | .headingH3 ts => Tok.descListL ts
  | .headingH4 ts => Tok.descListL ts
  | .attr _ ts => Tok.descListL ts
  | .task ts _ => Tok.descListL ts
  | _ => []

/-- The tokens of `ts` together with all their descendants. -/
def Tok.descListL : List Tok → List Tok
  | [] => []
  | t :: rest => t :: (Tok.descList t ++ Tok.descListL rest)

end



/-! ## Parser embedding (src/markdown/parsers.rs, src/markdown/tokenize.rs)

Parsers work on `List Char` and return a `POut`: `done remaining value`
(nom's `Ok((remaining, value))`), `fail e` (nom's `Err(nom::Err::Error(e))`),
or `panicked` (a Rust `panic!` or out-of-bounds abort).  None of the embedded
parsers produces nom's `Failure` or `Incomplete`. -/

/-- Embedding of `MarkdownParseError` (src/markdown/errors.rs); the payload
of the `Nom` case is dropped. -/
inductive MPErr where
  | invalidRawURL
  | invalidEmailAddress
  | invalidMarkdownHeading
  | invalidISO8601Date
  | unbalancedBracketCount
  | incompleteInput
  | nom
deriving DecidableEq

/-- Result of a parser on `List Char` input. -/
inductive POut (α : Type) where
  | done (rem : List Char) (val : α)
  | fail (e : MPErr)
  | panicked

/-- Embedding of nom's `tag`: consume a literal prefix. -/
def litP (lit : List Char) (i : List Char) : POut (List Char) :=
  if lit.isPrefixOf i then .done (i.drop lit.length) lit else .fail .nom

/-- First index at which `lit` occurs as a sublist of `i`, if any. -/
def findSub (lit : List Char) : List Char → Option Nat
  | [] => if lit.isEmpty then some 0 else none
  | c :: rest =>
      if lit.isPrefixOf (c :: rest) then some 0
      else match findSub lit rest with
        | some n => some (n + 1)
        | none => none

/-- Embedding of nom's `take_until`: consume up to (excluding) the first
occurrence of `lit`; fail when `lit` does not occur. -/
def takeUntilP (lit : List Char) (i : List Char) : POut (List Char) :=
  match findSub lit i with
  | some n => .done (i.drop n) (i.take n)
  | none => .fail .nom

/-- Embedding of nom's `take_while1`. -/
def takeWhile1P (p : Char → Bool) (i : List Char) : POut (List Char) :=
  let run := i.takeWhile p
  if run.isEmpty then .fail .nom else .done (i.drop run.length) run

/-- Embedding of nom's `is_not`: take characters until one of `set` occurs;
fail on an empty take. -/
def isNotP (set : List Char) (i : List Char) : POut (List Char) :=
  takeWhile1P (fun c => ¬ set.contains c) i

/-- Embedding of nom's `char`. -/
def charP (c : Char) (i : List Char) : POut Char :=
  match i with
  | c2 :: rest => if c2 = c then .done rest c else .fail .nom
  | [] => .fail .nom

/-- The characters matched by nom's `multispace0`/`multispace1`. -/
def isMultispace (c : Char) : Bool :=
  c = ' ' ∨ c = '\t' ∨ c = '\r' ∨ c = '\n'

/-- Embedding of nom's `multispace1`. -/
def multispace1P (i : List Char) : POut (List Char) :=
  takeWhile1P isMultispace i

/-- Embedding of `many1_count(tag("#"))` as used by the heading parser:
count the leading `#` characters, failing on zero. -/
def many1CountHash (i : List Char) : POut Nat :=
  let run := i.takeWhile (fun c => c = '#')
  if run.isEmpty then .fail .nom else .done (i.drop run.length) run.length

/-- Embedding of `fenced(start, end)` (src/markdown/parsers.rs):
`tuple((tag(start), take_until(end), tag(end)))` projected to the middle. -/
def fencedP (start fin : List Char) (i : List Char) : POut (List Char) :=
  match litP start i with
  | .done rem1 _ =>
      (match takeUntilP fin rem1 with
       | .done rem2 cap =>
           (match litP fin rem2 with
            | .done rem3 _ => .done rem3 cap
            | .fail e => .fail e
            | .panicked => .panicked)
       | .fail e => .fail e
       | .panicked => .panicked)
  | .fail e => .fail e
  | .panicked => .panicked

/-- The scanning loop of `take_until_unbalanced` (src/markdown/parsers.rs,
lines 28-72).  `acc` is the already-consumed prefix in reverse order.  A
backslash skips itself and the following character; a backslash as the very
last character makes the index run past the end of the string, which in the
source panics on the subsequent slice `&i[index..]` (`panicked` here).  An
unmatched closing bracket is returned unconsumed, with the prefix before it;
exhausting the input fails exactly when the depth is nonzero. -/
def takeUntilUnbalancedGo (op cl : Char) : List Char → Int → List Char → POut (List Char)
  | [], depth, acc =>
      if depth = 0 then .done [] acc.reverse else .fail .unbalancedBracketCount
  | c :: rest, depth, acc =>
      if c = '\\' then
        match rest with
        | [] => .panicked
        | d :: rest2 => takeUntilUnbalancedGo op cl rest2 depth (d :: c :: acc)
      else if c = op then takeUntilUnbalancedGo op cl rest (depth + 1) (c :: acc)
      else if c = cl then
        (if depth - 1 = -1 then .done (c :: rest) acc.reverse
         else takeUntilUnbalancedGo op cl rest (depth - 1) (c :: acc))
      else takeUntilUnbalancedGo op cl rest depth (c :: acc)

/-- Embedding of `take_until_unbalanced(opening_bracket, closing_bracket)`. -/
def takeUntilUnbalanced (op cl : Char) (i : List Char) : POut (List Char) :=
  takeUntilUnbalancedGo op cl i 0 []

/-- Embedding of `nonws_char`. -/
def nonwsChar (c : Char) : Bool :=
  ¬ c.isWhitespace ∧ ¬ (c = '\n')

/-- Embedding of `is_word_finish_char`. -/
def isWordFinishChar (c : Char) : Bool :=
  c = ',' ∨ c = '.' ∨ c = ':' ∨ c = ';' ∨ c = ')' ∨ c = ']'

/-- Embedding of `word`: longest nonempty run of non-whitespace characters
stopping before any word-finishing character. -/
def wordP (i : List Char) : POut (List Char) :=
  takeWhile1P (fun c => nonwsChar c ∧ ¬ isWordFinishChar c) i

/-- Embedding of `link = fenced("[[", "]]")`. -/
def linkP (i : List Char) : POut (List Char) :=
  fencedP "[[".data "]]".data i

/-- Embedding of `markdown_link`: `fenced("[", "]")` then a parenthesised
URL read with `take_until_unbalanced`. -/
def markdownLinkP (i : List Char) : POut (List Char × List Char) :=
  match fencedP "[".data "]".data i with
  | .done rem1 title =>
      (match charP '(' rem1 with
       | .done rem2 _ =>
           (match takeUntilUnbalanced '(' ')' rem2 with
            | .done rem3 url =>
                (match charP ')' rem3 with
                 | .done rem4 _ => .done rem4 (title, url)
                 | .fail e => .fail e
                 | .panicked => .panicked)
            | .fail e => .fail e
            | .panicked => .panicked)
       | .fail e => .fail e
       | .panicked => .panicked)
  | .fail e => .fail e
  | .panicked => .panicked

/-- Embedding of `link_or_word`. -/
def linkOrWordP (i : List Char) : POut (List Char) :=
  match linkP i with
  | .done rem v => .done rem v
  | .panicked => .panicked
  | .fail _ => wordP i

/-- Embedding of `hashtag`: `preceded(char('#'), link_or_word)`. -/
def hashtagP (i : List Char) : POut (List Char) :=
  match charP '#' i with
  | .done rem _ => linkOrWordP rem
  | .fail e => .fail e
  | .panicked => .panicked

/-- Embedding of `triple_backtick`. -/
def tripleBacktickP (i : List Char) : POut (List Char) :=
  fencedP "```".data "```".data i

/-- Embedding of `single_backtick`: `delimited(char('`'), is_not("`"), char('`'))`. -/
def singleBacktickP (i : List Char) : POut (List Char) :=
  match charP '`' i with
  | .done rem1 _ =>
      (match isNotP "`".data rem1 with
       | .done rem2 body =>
           (match charP '`' rem2 with
            | .done rem3 _ => .done rem3 body
            | .fail e => .fail e
            | .panicked => .panicked)
       | .fail e => .fail e
       | .panicked => .panicked)
  | .fail e => .fail e
  | .panicked => .panicked

/-- Embedding of `block_ref = fenced("((", "))")`. -/
def blockRefP (i : List Char) : POut (List Char) :=
  fencedP "((".data "))".data i

/-- Embedding of `latex = fenced("$$", "$$")` (opaque body). -/
def latexP (i : List Char) : POut (List Char) :=
  fencedP "$$".data "$$".data i

/-- Embedding of `tag_token`: `preceded(char('@'), word)`. -/
def tagTokenP (i : List Char) : POut (List Char) :=
  match charP '@' i with
  | .done rem _ => wordP rem
  | .fail e => .fail e
  | .panicked => .panicked

/-- Modelled from the spec: the `email_address_parser::EmailAddress::parse`
validity check of an external crate absent from the repository ("must
validate as a well-formed address per standard email grammar").  The model
demands exactly one `@` between a nonempty local part and a nonempty
dot-containing domain of plain address characters. -/
def emailValid (cs : List Char) : Bool :=
  let isLocalChar : Char → Bool := fun c =>
    c.isAlphanum ∨ c = '.' ∨ c = '_' ∨ c = '%' ∨ c = '+' ∨ c = '-'
  let isDomainChar : Char → Bool := fun c =>
    c.isAlphanum ∨ c = '.' ∨ c = '-'
  let loc := cs.takeWhile (fun c => ¬ (c = '@'))
  let rest := cs.drop loc.length
  match rest with
  | '@' :: dom =>
      ¬ loc.isEmpty ∧ loc.all isLocalChar ∧
        ¬ dom.isEmpty ∧ dom.all isDomainChar ∧
        dom.contains '.' ∧ ¬ dom.contains '@' ∧
        dom.headD '.' ≠ '.' ∧ dom.getLastD '.' ≠ '.'
  | _ => false

/-- The candidate countdown of `email` (src/markdown/parsers.rs, lines
158-189): try prefixes of `considered` of length `i, i-1, ..., 5`, skipping
candidates that contain a space, succeeding on the first (longest) one that
the validator accepts. -/
def emailGo (valid : List Char → Bool) (input considered : List Char) : Nat → POut (List Char)
  | 0 => .fail .invalidEmailAddress
  | i + 1 =>
      if i + 1 < 5 then .fail .invalidEmailAddress
      else
        let cand := considered.take (i + 1)
        if cand.contains ' ' then emailGo valid input considered i
        else if valid cand then .done (input.drop (i + 1)) cand
        else emailGo valid input considered i

/-- Embedding of `email`, parameterised by the validity check of the
external email crate.  The first 50 characters of the input bound the
considered prefix lengths. -/
def emailP (valid : List Char → Bool) (input : List Char) : POut (List Char) :=
  let considered := input.take 50
  emailGo valid input considered considered.length

/-- Modelled from the spec: the `urlocator` crate state machine ("recognizes
http/https/file-like URLs per the standard URL locator state machine,
returning the longest prefix classified as URL; fails if zero length").  The
model accepts a known scheme followed by a nonempty run of non-whitespace
characters and fails otherwise. -/
def rawUrlP (i : List Char) : POut (List Char) :=
  let schemes : List (List Char) :=
    ["http://".data, "https://".data, "file://".data, "ftp://".data]
  match schemes.find? (fun s => s.isPrefixOf i) with
  | some s =>
      let tail := (i.drop s.length).takeWhile (fun c => ¬ isMultispace c)
      if tail.isEmpty then .fail .invalidRawURL
      else .done (i.drop (s.length + tail.length)) (i.take (s.length + tail.length))
  | none => .fail .invalidRawURL

/-- Intermediate result of the modelled ISO-8601 date grammar. -/
inductive Iso8601Date where
  | ymd (y : Int) (m d : Nat)
  | week (y : Int) (ww d : Nat)
  | ordinal (y : Int) (ddd : Nat)

/-- Take exactly `n` decimal digits from the front of the input. -/
def digitsN (n : Nat) (i : List Char) : Option (Nat × List Char) :=
  let run := (i.take n).takeWhile Char.isDigit
  if run.length = n then
    some (run.foldl (fun acc c => acc * 10 + (c.toNat - 48)) 0, i.drop n)
  else none

/-- Modelled from the spec: `iso8601::parsers::parse_date` of the external
iso8601 crate ("parses an ISO-8601 date in any of YMD, week-date, or ordinal
forms").  The model reads a four-digit year and then a hyphenated week
(`-Www-D`), calendar (`-MM-DD`) or ordinal (`-DDD`) tail; signed years and
the unhyphenated basic format are not modelled. -/
def parseIso8601Date (i : List Char) : POut Iso8601Date :=
  match digitsN 4 i with
  | none => .fail .invalidISO8601Date
  | some (y, r1) =>
      match r1 with
      | '-' :: 'W' :: r2 =>
          (match digitsN 2 r2 with
           | some (ww, r3) =>
               (match r3 with
                | '-' :: r4 =>
                    (match digitsN 1 r4 with
                     | some (d, r5) => .done r5 (.week (Int.ofNat y) ww d)
                     | none => .fail .invalidISO8601Date)
                | _ => .fail .invalidISO8601Date)
           | none => .fail .invalidISO8601Date)
      | '-' :: r2 =>
          (match digitsN 2 r2 with
           | some (m, r3) =>
               (match r3 with
                | '-' :: r4 =>
                    (match digitsN 2 r4 with
                     | some (d, r5) => .done r5 (.ymd (Int.ofNat y) m d)
                     | none =>
                         (match digitsN 3 r2 with
                          | some (ddd, r5) => .done r5 (.ordinal (Int.ofNat y) ddd)
                          | none => .fail .invalidISO8601Date))
                | _ =>
                    (match digitsN 3 r2 with
                     | some (ddd, r5) => .done r5 (.ordinal (Int.ofNat y) ddd)
                     | none => .fail .invalidISO8601Date))
           | none => .fail .invalidISO8601Date)
      | _ => .fail .invalidISO8601Date

/-- Embedding of `chrono::Weekday::try_from(u8)`: days-from-Monday 0-6. -/
def weekdayTryFrom (n : Nat) : Option Nat :=
  if n ≤ 6 then some n else none

/-- Embedding of `date` (src/markdown/parsers.rs, lines 330-346).  The
weekday conversion `Weekday::try_from(d as u8).unwrap()` panics when the
parsed ISO weekday digit exceeds 6; this is preserved. -/
def dateP (i : List Char) : POut Date :=
  match parseIso8601Date i with
  | .fail _ => .fail .invalidISO8601Date
  | .panicked => .panicked
  | .done rem iso =>
      match iso with
      | .ymd y m d =>
          (match Date.fromYmdOpt y m d with
           | some dt => .done rem dt
           | none => .fail .invalidISO8601Date)
      | .week y ww d =>
          (match weekdayTryFrom (d % 256) with
           | none => .panicked
           | some wd =>
               match Date.fromIsoywdOpt y ww wd with
               | some dt => .done rem dt
               | none => .fail .invalidISO8601Date)
      | .ordinal y ddd =>
          (match Date.fromYoOpt y ddd with
           | some dt => .done rem dt
           | none => .fail .invalidISO8601Date)

/-- Alternation step: on `fail` try the next parser, as nom's `alt` does for
`Err::Error`; `done` and `panicked` are final. -/
def POut.orElseP {α : Type} (r : POut α) (q : Unit → POut α) : POut α :=
  match r with
  | .done rem v => .done rem v
  | .panicked => .panicked
  | .fail _ => q ()

mutual

/-- Embedding of `directive` (src/markdown/parsers.rs, lines 215-243): the
ordered alternation over all inline parsers.  `fuel` only bounds the mutual
recursion through the style parsers; it is chosen large enough at the entry
point (running out returns `panicked`, which no run with adequate fuel
reaches). -/
def directiveP : Nat → List Char → POut Tok
  | 0, _ => .panicked
  | fuel + 1, i =>
      (match markdownLinkP i with
       | .done rem (title, url) =>
           if url.headD ' ' = '#' then
             .done rem (.markdownInternalLink title.asString url.asString)
           else .done rem (.markdownExternalLink title.asString url.asString)
       | .fail e => .fail e
       | .panicked => .panicked : POut Tok).orElseP fun _ =>
      (match dateP i with
       | .done rem d => .done rem (.date d)
       | .fail e => .fail e
       | .panicked => .panicked : POut Tok).orElseP fun _ =>
      (match emailP emailValid i with
       | .done rem s => .done rem (.email s.asString)
       | .fail e => .fail e
       | .panicked => .panicked : POut Tok).orElseP fun _ =>
      (match tagTokenP i with
       | .done rem s => .done rem (.tag s.asString)
       | .fail e => .fail e
       | .panicked => .panicked : POut Tok).orElseP fun _ =>
      (match tripleBacktickP i with
       | .done rem s => .done rem (.tripleBacktick s.asString)
       | .fail e => .fail e
       | .panicked => .panicked : POut Tok).orElseP fun _ =>
      (match singleBacktickP i with
       | .done rem s => .done rem (.singleBacktick s.asString)
       | .fail e => .fail e
       | .panicked => .panicked : POut Tok).orElseP fun _ =>
      (match hashtagP i with
       | .done rem s => .done rem (.hashtag s.asString)
       | .fail e => .fail e
       | .panicked => .panicked : POut Tok).orElseP fun _ =>
      (match blockRefP i with
       | .done rem s => .done rem (.blockRef s.asString)
       | .fail e => .fail e
       | .panicked => .panicked : POut Tok).orElseP fun _ =>
      (match charP '!' i with
       | .done rem1 _ =>
           (match markdownLinkP rem1 with
            | .done rem (alt, url) => .done rem (.image alt.asString url.asString)
            | .fail e => .fail e
            | .panicked => .panicked)
       | .fail e => .fail e
       | .panicked => .panicked : POut Tok).orElseP fun _ =>
      (match linkP i with
       | .done rem s => .done rem (.link s.asString)
       | .fail e => .fail e
       | .panicked => .panicked : POut Tok).orElseP fun _ =>
      (match styleP fuel "**".data i with
       | .done rem ts => .done rem (.bold ts)
       | .fail e => .fail e
       | .panicked => .panicked : POut Tok).orElseP fun _ =>
      (match styleP fuel "*".data i with
       | .done rem ts => .done rem (.italic ts)
       | .fail e => .fail e
       | .panicked => .panicked : POut Tok).orElseP fun _ =>
      (match styleP fuel "~~".data i with
       | .done rem ts => .done rem (.strike ts)
       | .fail e => .fail e
       | .panicked => .panicked : POut Tok).orElseP fun _ =>
      (match styleP fuel "^^".data i with
       | .done rem ts => .done rem (.highlight ts)
       | .fail e => .fail e
       | .panicked => .panicked : POut Tok).orElseP fun _ =>
      (match latexP i with
       | .done rem s => .done rem (.latex s.asString)
       | .fail e => .fail e
       | .panicked => .panicked : POut Tok).orElseP fun _ =>
      (match rawUrlP i with
       | .done rem s => .done rem (.rawHyperlink s.asString)
       | .fail e => .fail e
       | .panicked => .panicked)

/-- Embedding of `style(boundary)`: `map_parser(fenced(boundary, boundary),
parse_inline)` - the fenced body is re-parsed inline. -/
def styleP : Nat → List Char → List Char → POut (List Tok)
  | 0, _, _ => .panicked
  | fuel + 1, boundary, i =>
      match fencedP boundary boundary i with
      | .done rem cap =>
          (match piGo fuel cap 0 [] with
           | .done _ ts => .done rem ts
           | .fail e => .fail e
           | .panicked => .panicked)
      | .fail e => .fail e
      | .panicked => .panicked

/-- Embedding of the scanning loop of `parse_inline` (src/markdown/parsers.rs,
lines 246-286).  `cs` is the current input, `i` the scan position inside it,
`acc` the emitted tokens.  On a directive hit the preceding unemitted run is
emitted as `Text` and scanning restarts on the directive's remainder; when no
position matches, the whole of `cs` is emitted as `Text`. -/
def piGo : Nat → List Char → Nat → List Tok → POut (List Tok)
  | 0, _, _, _ => .panicked
  | fuel + 1, cs, i, acc =>
      if cs.isEmpty then .done [] acc
      else if i < cs.length then
        match directiveP fuel (cs.drop i) with
        | .panicked => .panicked
        | .fail _ => piGo fuel cs (i + 1) acc
        | .done rem v =>
            let lead := cs.take i
            piGo fuel rem 0
              (acc ++ (if lead.isEmpty then [] else [Tok.text lead.asString]) ++ [v])
      else .done [] (acc ++ [Tok.text cs.asString])

end

/-- Fuel that no actual run of `parse_inline` exhausts: every step of the
scan loop consumes at least one unit per visited position and every restart
shortens the input. -/
def inlineFuel (n : Nat) : Nat :=
  (n + 3) * (n + 3) * (n + 3)

/-- Embedding of `parse_inline`. -/
def parseInline (i : List Char) : POut (List Tok) :=
  piGo (inlineFuel i.length) i 0 []

/-- Embedding of `attribute` (src/markdown/parsers.rs, lines 289-293):
`separated_pair(is_not(":`"), tag("::"), parse_inline)`. -/
def attributeP (i : List Char) : POut (String × List Tok) :=
  match isNotP ":`".data i with
  | .done rem1 name =>
      (match litP "::".data rem1 with
       | .done rem2 _ =>
           (match parseInline rem2 with
            | .done rem3 ts => .done rem3 (name.asString, ts)
            | .fail e => .fail e
            | .panicked => .panicked)
       | .fail e => .fail e
       | .panicked => .panicked)
  | .fail e => .fail e
  | .panicked => .panicked

/-- The status alternation of `task` (src/markdown/parsers.rs, lines
295-315). -/
def taskStatusAlt (i : List Char) : POut Tok :=
  (match litP "TODO:".data i with
   | .done rem _ => .done rem (.task [] .todo)
   | .fail e => .fail e
   | .panicked => .panicked : POut Tok).orElseP fun _ =>
  (match litP "DOING:".data i with
   | .done rem _ => .done rem (.task [] .doing)
   | .fail e => .fail e
   | .panicked => .panicked : POut Tok).orElseP fun _ =>
  (match litP "REVIEW:".data i with
   | .done rem _ => .done rem (.task [] .review)
   | .fail e => .fail e
   | .panicked => .panicked : POut Tok).orElseP fun _ =>
  (match litP "DONE:".data i with
   | .done rem _ => .done rem (.task [] .done)
   | .fail e => .fail e
   | .panicked => .panicked : POut Tok).orElseP fun _ =>
  (match litP "TODO UNTIL ".data i with
   | .done rem1 _ =>
       (match dateP rem1 with
        | .done rem2 d =>
            (match litP ":".data rem2 with
             | .done rem3 _ => .done rem3 (.task [] (.todoUntil d))
             | .fail e => .fail e
             | .panicked => .panicked)
        | .fail e => .fail e
        | .panicked => .panicked)
   | .fail e => .fail e
   | .panicked => .panicked)

/-- Embedding of `task`: the status alternation terminated by mandatory
whitespace, with the rest of the line inline-parsed as the task content. -/
def taskP (i : List Char) : POut Tok :=
  match taskStatusAlt i with
  | .done rem1 t =>
      (match multispace1P rem1 with
       | .done taskDescription _ =>
           (match t with
            | .task _ status =>
                (match parseInline taskDescription with
                 | .done _ content => .done [] (.task content status)
                 | .fail e => .fail e
                 | .panicked => .panicked)
            | _ => .panicked)
       | .fail e => .fail e
       | .panicked => .panicked)
  | .fail e => .fail e
  | .panicked => .panicked

/-- Embedding of `heading` (src/markdown/parsers.rs, lines 317-328): one or
more `#`, mandatory whitespace, inline content; five or more `#` are
rejected only after the inline parse. -/
def headingP (i : List Char) : POut Tok :=
  match many1CountHash i with
  | .done contentRaw cnt =>
      (match multispace1P contentRaw with
       | .done rem1 _ =>
           (match parseInline rem1 with
            | .done rem2 content =>
                (match cnt with
                 | 1 => .done rem2 (.headingH1 content)
                 | 2 => .done rem2 (.headingH2 content)
                 | 3 => .done rem2 (.headingH3 content)
                 | 4 => .done rem2 (.headingH4 content)
                 | _ => .fail .invalidMarkdownHeading)
            | .fail e => .fail e
            | .panicked => .panicked)
       | .fail e => .fail e
       | .panicked => .panicked)
  | .fail e => .fail e
  | .panicked => .panicked

/-- Embedding of nom's `all_consuming`: succeed only when the inner parser
leaves no input. -/
def allConsuming {α : Type} (r : POut α) : POut α :=
  match r with
  | .done [] v => .done [] v
  | .done (_ :: _) _ => .fail .nom
  | .fail e => .fail e
  | .panicked => .panicked

/-- Embedding of nom's `multispace0` (always succeeds). -/
def multispace0P (i : List Char) : POut (List Char) :=
  let run := i.takeWhile isMultispace
  .done (i.drop run.length) run

/-- Result of `parse_line`: the token list, a line-scoped parse error, or a
panic. -/
inductive LineRes where
  | ok (ts : List Tok)
  | err (e : MPErr)
  | panicked

/-- Embedding of `parse_line` (src/markdown/tokenize.rs, lines 52-75): the
seven line alternatives, each required to consume the entire line. -/
def parseLine (i : List Char) : LineRes :=
  match
    (match allConsuming (multispace0P i) with
     | .done rem _ => .done rem [Tok.blank]
     | .fail e => .fail e
     | .panicked => .panicked : POut (List Tok)).orElseP fun _ =>
    (match allConsuming (litP "---".data i) with
     | .done rem _ => .done rem [Tok.hRule]
     | .fail e => .fail e
     | .panicked => .panicked : POut (List Tok)).orElseP fun _ =>
    (match litP "> ".data i with
     | .done rem1 _ =>
         allConsuming
           (match parseInline rem1 with
            | .done rem2 ts => .done rem2 [Tok.blockQuote ts]
            | .fail e => .fail e
            | .panicked => .panicked)
     | .fail e => .fail e
     | .panicked => .panicked : POut (List Tok)).orElseP fun _ =>
    (match allConsuming (attributeP i) with
     | .done rem (name, value) => .done rem [Tok.attr name value]
     | .fail e => .fail e
     | .panicked => .panicked : POut (List Tok)).orElseP fun _ =>
    (allConsuming
      (match taskP i with
       | .done rem1 todoToken =>
           (match parseInline rem1 with
            | .done rem2 ts => .done rem2 (todoToken :: ts)
            | .fail e => .fail e
            | .panicked => .panicked)
       | .fail e => .fail e
       | .panicked => .panicked)).orElseP fun _ =>
    (allConsuming
      (match headingP i with
       | .done rem h => .done rem [h]
       | .fail e => .fail e
       | .panicked => .panicked)).orElseP fun _ =>
    allConsuming (parseInline i)
  with
  | .done _ ts => .ok ts
  | .fail e => .err e
  | .panicked => .panicked

/-- Embedding of `MDPError` (src/models/errors.rs); the IO and config cases
play no role in the core and are omitted. -/
inductive MDPErr where
  | markdownParseError (msg : String) (lineNumber : Nat)
  | mdpSyntaxError (s : String)
  | multiError (es : List MDPErr)

/-- Display of a `MarkdownParseError` (src/markdown/errors.rs); the payload
of the `Nom` case is not reproduced. -/
def MPErr.display : MPErr → String
  | .invalidEmailAddress => "The input could not be interpreted as an email address"
  | .invalidISO8601Date => "The input could not be interpreted as an ISO08601 date"
  | .invalidMarkdownHeading => "The input could not be interpreted as a Markdown heading"
  | .invalidRawURL => "The input could not be interpreted as an URL"
  | .unbalancedBracketCount => "The input contains unbalanced brackets"
  | .incompleteInput => "Not enough input was given."
  | .nom => "A Nom error occured"

/-- Embedding of `MarkdownParseError::into_mdp_error`. -/
def MPErr.intoMdpError (e : MPErr) (lineNumber : Nat) : MDPErr :=
  .markdownParseError e.display lineNumber

/-- Embedding of `split_into_lines`: split on the newline character, keeping
empty pieces (the Rust `str::split('\n')` semantics). -/
def splitIntoLines (i : List Char) : List (List Char) :=
  match i with
  | [] => [[]]
  | c :: rest =>
      if c = '\n' then [] :: splitIntoLines rest
      else match splitIntoLines rest with
        | [] => [[c]]
        | l :: ls => (c :: l) :: ls

/-- Result of `tokenize`: tokens, an aggregated error, or a panic. -/
inductive TokRes where
  | ok (ts : List Tok)
  | err (e : MDPErr)
  | panicked

/-- The per-line loop of `tokenize`: parse each line, splice a `Newline`
sentinel after it, and collect line-scoped errors; a panic aborts
immediately. -/
def tokenizeLines : List (List Char) → Nat → List Tok → List MDPErr →
    TokRes
  | [], _, toks, errs =>
      if errs.isEmpty then .ok toks else .err (.multiError errs)
  | line :: rest, lineNumber, toks, errs =>
      match parseLine line with
      | .ok ts => tokenizeLines rest (lineNumber + 1) (toks ++ ts ++ [Tok.newline]) errs
      | .err e =>
          tokenizeLines rest (lineNumber + 1) (toks ++ [Tok.newline])
            (errs ++ [e.intoMdpError lineNumber])
      | .panicked => .panicked

/-- Embedding of `MDPMarkdownTokenizer::tokenize` (src/markdown/tokenize.rs,
lines 20-37). -/
def tokenize (s : String) : TokRes :=
  tokenizeLines (splitIntoLines s.data) 0 [] []

/-- Concatenated markdown rendering of a token list (the render side of the
round-trip claim). -/
def renderToks (ts : List Tok) : String :=
  Tok.childTokensAsMarkdownString ts

/-! ## Section builder embedding (src/markdown/sections.rs) -/

/-- Embedding of `SectionType` (src/models/sections.rs). -/
inductive SectionType where
  | h1
  | h2
  | h3
  | h4
deriving DecidableEq

/-- Embedding of `Section` (src/models/sections.rs); `subsections` is the
plain list of subsections. -/
inductive Section where
  | mk (title : Tok) (sectionType : SectionType) (tags : List String)
      (date : Date) (content : List Tok) (subsections : List Section)

def Section.title : Section → Tok
  | .mk t _ _ _ _ _ => t

def Section.sectionType : Section → SectionType
  | .mk _ st _ _ _ _ => st

def Section.tags : Section → List String
  | .mk _ _ tg _ _ _ => tg

def Section.date : Section → Date
  | .mk _ _ _ d _ _ => d

def Section.content : Section → List Tok
  | .mk _ _ _ _ c _ => c

def Section.subsections : Section → List Section
  | .mk _ _ _ _ _ s => s

/-- Embedding of `HierarchicalToken` (src/markdown/sections.rs). -/
inductive HierarchicalToken where
  | mk (token : Tok) (children : List HierarchicalToken)

def HierarchicalToken.token : HierarchicalToken → Tok
  | .mk t _ => t

def HierarchicalToken.children : HierarchicalToken → List HierarchicalToken
  | .mk _ c => c

/-- Embedding of `HierarchicalToken::from_token`. -/
def HierarchicalToken.fromToken (t : Tok) : HierarchicalToken :=
  .mk t []

/-- Embedding of `TokenHierarchy`. -/
structure TokenHierarchy where
  levels : List TokenType
deriving DecidableEq

/-- The value of `usize::MAX`, which `TokenHierarchy::position` returns for
token types outside the hierarchy. -/
def usizeMax : Nat := 18446744073709551615

/-- Embedding of `TokenHierarchy::position`. -/
def TokenHierarchy.position (h : TokenHierarchy) (tt : TokenType) : Nat :=
  match h.levels.indexOf? tt with
  | some i => i
  | none => usizeMax

/-- Embedding of `TokenHierarchy::token_type_at`. -/
def TokenHierarchy.tokenTypeAt (h : TokenHierarchy) (pos : Nat) : Option TokenType :=
  h.levels.get? pos

/-- Embedding of `HierarchizeStatus`. -/
structure HierarchizeStatus where
  maxHierarchyLevel : Nat
  hierarchyLevel : Nat
  maxRecursionLevel : Nat
  recursionLevel : Nat
deriving DecidableEq

/-- Embedding of `HierarchizeStatus::new`. -/
def HierarchizeStatus.new (maxHierarchyLevel maxRecursionLevel : Nat) : HierarchizeStatus :=
  { maxHierarchyLevel := maxHierarchyLevel, hierarchyLevel := 0,
    maxRecursionLevel := maxRecursionLevel, recursionLevel := 0 }

/-- Embedding of `HierarchizeStatus::one_hierarchy_level_deeper`. -/
def HierarchizeStatus.oneHierarchyLevelDeeper (s : HierarchizeStatus) : Option HierarchizeStatus :=
  if s.hierarchyLevel + 1 ≥ s.maxHierarchyLevel then none
  else some { s with hierarchyLevel := s.hierarchyLevel + 1 }

/-- Embedding of `HierarchizeStatus::one_recursion_level_deeper`. -/
def HierarchizeStatus.oneRecursionLevelDeeper (s : HierarchizeStatus) : Option HierarchizeStatus :=
  if s.recursionLevel + 1 ≥ s.maxRecursionLevel then none
  else some { s with recursionLevel := s.recursionLevel + 1 }

/-- Embedding of `HierarchizeStatus::is_hierarchy_root`. -/
def HierarchizeStatus.isHierarchyRoot (s : HierarchizeStatus) : Bool :=
  s.hierarchyLevel = 0

/-- The grouping loop of `split_at_markdown_element`: `groups` and `current`
accumulate the finished groups and the group being built. -/
def splitAtGo (tt : TokenType) : List HierarchicalToken → List (List HierarchicalToken) →
    List HierarchicalToken → List (List HierarchicalToken)
  | [], groups, current => if current.isEmpty then groups else groups ++ [current]
  | t :: rest, groups, current =>
      if t.token.tokenType = tt then
        (if current.isEmpty then splitAtGo tt rest groups [t]
         else splitAtGo tt rest (groups ++ [current]) [t])
      else splitAtGo tt rest groups (current ++ [t])

/-- Embedding of `split_at_markdown_element` (src/markdown/sections.rs,
lines 229-256): split a sibling list into groups starting at each token of
the split type. -/
def splitAtMarkdownElement (hts : List HierarchicalToken) (tt : TokenType) :
    List (List HierarchicalToken) :=
  splitAtGo tt hts [] []

/-- Embedding of `hierarchize_one_group` (src/markdown/sections.rs, lines
177-227).  A group whose first token has the split type adopts every
following sibling except those strictly higher in the hierarchy, which are
returned to the sibling list after it; a non-matching first token at the
hierarchy root is wrapped under a synthetic `Blank` parent; otherwise the
group is left flat. -/
def hierarchizeOneGroup (hierarchy : TokenHierarchy) (hts : List HierarchicalToken)
    (status : HierarchizeStatus) (insertBlankRootToken : Bool) : List HierarchicalToken :=
  if hts.isEmpty then [] else
  match hierarchy.tokenTypeAt status.hierarchyLevel with
  | none => hts
  | some splitTokenType =>
      match hts with
      | [] => []
      | token :: rest =>
          if token.token.tokenType = splitTokenType then
            let isHigher := fun (t : HierarchicalToken) =>
              hierarchy.position t.token.tokenType < hierarchy.position token.token.tokenType
            let higherHierarchyTokens := rest.filter isHigher
            let adopted := rest.filter (fun t => ¬ isHigher t)
            HierarchicalToken.mk token.token (token.children ++ adopted) :: higherHierarchyTokens
          else if insertBlankRootToken then
            [HierarchicalToken.mk Tok.blank (token :: rest)]
          else token :: rest

/-- Embedding of `hierarchize_recursive_one_hierarchy_level`
(src/markdown/sections.rs, lines 132-175).  `budget` equals
`status.maxRecursionLevel - status.recursionLevel` at every call and only
makes the recursion structural: descent into children happens exactly when
`one_recursion_level_deeper` permits it, and on the synchronised calls the
source stops through `one_recursion_level_deeper` strictly before the
budget reaches zero, so the zero case (children left untouched) coincides
with the source's behavior. -/
def hierarchizeRecursiveOneHierarchyLevel : Nat → TokenHierarchy →
    List HierarchicalToken → HierarchizeStatus → Bool → List HierarchicalToken
  | _, _, [], _, _ => []
  | 0, hierarchy, hts@(_ :: _), status, insertBlankRootToken =>
      (match hierarchy.tokenTypeAt status.hierarchyLevel with
       | none => hts
       | some markdownElementType =>
           (splitAtMarkdownElement hts markdownElementType).flatMap
             (fun g => hierarchizeOneGroup hierarchy g status insertBlankRootToken))
  | b + 1, hierarchy, hts@(_ :: _), status, insertBlankRootToken =>
      (match hierarchy.tokenTypeAt status.hierarchyLevel with
       | none => hts
       | some markdownElementType =>
           ((splitAtMarkdownElement hts markdownElementType).flatMap
             (fun g => hierarchizeOneGroup hierarchy g status insertBlankRootToken)).map
             (fun t =>
               match status.oneRecursionLevelDeeper with
               | some nextStatus =>
                   HierarchicalToken.mk t.token
                     (hierarchizeRecursiveOneHierarchyLevel b hierarchy t.children
                       nextStatus false)
               | none => t))

/-- The hierarchy-level loop of `hierarchize_tokens_using_headings`:
`levelsLeft` equals `status.maxHierarchyLevel - status.hierarchyLevel` and
only makes the loop structural. -/
def hierarchizeLoop : Nat → TokenHierarchy → List HierarchicalToken → HierarchizeStatus →
    List HierarchicalToken
  | 0, _, hts, _ => hts
  | n + 1, hierarchy, hts, status =>
      let hts2 := hierarchizeRecursiveOneHierarchyLevel
        (status.maxRecursionLevel - status.recursionLevel) hierarchy hts status
        status.isHierarchyRoot
      match status.oneHierarchyLevelDeeper with
      | some status2 => hierarchizeLoop n hierarchy hts2 status2
      | none => hts2

/-- Embedding of `hierarchize_tokens_using_headings` (src/markdown/sections.rs,
lines 101-130). -/
def hierarchizeTokensUsingHeadings (tokens : List Tok) : List HierarchicalToken :=
  let hierarchicalTokens := tokens.map HierarchicalToken.fromToken
  let hierarchy : TokenHierarchy :=
    { levels := [TokenType.headingH1, TokenType.headingH2, TokenType.headingH3,
                 TokenType.headingH4] }
  hierarchizeLoop hierarchy.levels.length hierarchy hierarchicalTokens
    (HierarchizeStatus.new hierarchy.levels.length 10)

/-- The section type and title elements of a heading token. -/
def secInfo : Tok → Option (SectionType × List Tok)
  | .headingH1 t => some (.h1, t)
  | .headingH2 t => some (.h2, t)
  | .headingH3 t => some (.h3, t)
  | .headingH4 t => some (.h4, t)
  | _ => none

/-- The `Date` payloads among a heading's title elements. -/
def titleDates (titleElements : List Tok) : List Date :=
  titleElements.filterMap (fun t => match t with | .date d => some d | _ => none)

/-- The content accumulation of `sections_from_hierarchized_tokens`:
direct-child tokens up to the first heading, without `HRule` and `Blank`. -/
def collectContent : List HierarchicalToken → List Tok
  | [] => []
  | c :: rest =>
      match c.token with
      | .headingH1 _ => []
      | .headingH2 _ => []
      | .headingH3 _ => []
      | .headingH4 _ => []
      | .hRule => collectContent rest
      | .blank => collectContent rest
      | t => t :: collectContent rest

/-- The `Tag` payloads among direct children. -/
def collectTags (children : List HierarchicalToken) : List String :=
  children.filterMap (fun c => match c.token with | .tag s => some s | _ => none)

mutual

/-- Embedding of `sections_from_hierarchized_tokens` (src/markdown/sections.rs,
lines 21-99): materialize the hierarchized forest into sections, skipping
non-heading nodes, resolving each section's date from the parent date or the
unique `Date` among its title elements, and recursing into children with the
resolved date. -/
def sectionsFromHierarchizedTokens : List HierarchicalToken → Option Date →
    Except MDPErr (List Section)
  | [], _ => .ok []
  | t :: rest, parentDate =>
      match sectionFromNode t parentDate with
      | .error e => .error e
      | .ok none => sectionsFromHierarchizedTokens rest parentDate
      | .ok (some s) =>
          match sectionsFromHierarchizedTokens rest parentDate with
          | .error e => .error e
          | .ok ss => .ok (s :: ss)

/-- The per-node body of the loop in `sections_from_hierarchized_tokens`:
`none` for non-heading tokens (the `continue` branch). -/
def sectionFromNode : HierarchicalToken → Option Date → Except MDPErr (Option Section)
  | .mk token children, parentDate =>
      match secInfo token with
      | none => .ok none
      | some (sectionType, titleElements) =>
          let tags := collectTags children
          let dateRes : Except MDPErr Date :=
            match parentDate with
            | some d => .ok d
            | none =>
                match titleDates titleElements with
                | [] =>
                    .error (.mdpSyntaxError ("The section title "
                      ++ token.toMarkdownString ++ " doesn\x27t contain a date."))
                | [d] => .ok d
                | _ =>
                    .error (.mdpSyntaxError ("The section title "
                      ++ token.toMarkdownString ++ " does contain more than one date."))
          match dateRes with
          | .error e => .error e
          | .ok date =>
              let content := collectContent children
              match sectionsFromHierarchizedTokens children (some date) with
              | .error e => .error e
              | .ok subsections =>
                  .ok (some (Section.mk token sectionType tags date content subsections))

end

/-- Embedding of `MDPSectionBuilder::sections_from_tokens`. -/
def sectionsFromTokens (tokens : List Tok) : Except MDPErr (List Section) :=
  sectionsFromHierarchizedTokens (hierarchizeTokensUsingHeadings tokens) none

/-! ## Task command embedding (src/commands/task/command.rs) -/

/-- Embedding of the `Task` struct of the tasks command. -/
structure TaskItem where
  content : List Tok
  status : TaskStatus

/-- Embedding of `Task::is_finished`: true only for `Done`. -/
def TaskItem.isFinished (t : TaskItem) : Bool :=
  match t.status with
  | .done => true
  | _ => false

/-- Embedding of `Task::is_unfinished`. -/
def TaskItem.isUnfinished (t : TaskItem) : Bool :=
  ¬ t.isFinished

/-- Embedding of `Task::urgency`, with the `Utc::now` date passed as
`today`.  `(d - today).num_days()` becomes the difference of civil day
counts; the final `as usize` cast is the identity because both branches are
nonnegative. -/
def TaskItem.urgency (t : TaskItem) (today : Date) : Int :=
  match t.status with
  | .done => 0
  | .review => 10
  | .doing => 20
  | .todo => 30
  | .todoUntil d =>
      let daysUntil : Int := d.toDays - today.toDays
      let urgencyPart : Int := if daysUntil > 0 then daysUntil * 10 else daysUntil.natAbs * 100
      30 + urgencyPart

/-- Embedding of `TaskFilterType` (src/commands/task/config.rs). -/
inductive TaskFilterType where
  | all
  | finished
  | unfinished
deriving DecidableEq

/-- Embedding of `TaskOrderingCriterion` (src/commands/task/config.rs). -/
inductive TaskOrderingCriterion where
  | occurence
  | urgency
deriving DecidableEq

/-- Embedding of `tasks_from_tokens`. -/
def tasksFromTokens (tokens : List Tok) : List TaskItem :=
  tokens.filterMap (fun t =>
    match t with
    | .task content status => some { content := content, status := status }
    | _ => none)

/-- Embedding of `filter_tasks`. -/
def filterTasks (tasks : List TaskItem) (filter : TaskFilterType) : List TaskItem :=
  match filter with
  | .all => tasks
  | .finished => tasks.filter (fun t => t.isFinished)
  | .unfinished => tasks.filter (fun t => t.isUnfinished)

/-- Embedding of `order_tasks`: `sort_by_key(urgency)` is a stable ascending
sort, embedded as a stable merge sort on the urgency key. -/
def orderTasks (today : Date) (tasks : List TaskItem) (ordering : TaskOrderingCriterion) :
    List TaskItem :=
  match ordering with
  | .occurence => tasks
  | .urgency => tasks.mergeSort (fun a b => decide (a.urgency today ≤ b.urgency today))

/-! ## Specification-side definitions for the claims -/

/-- Erase all `Blank` and `Newline` tokens.  Two token lists that agree up
to runs of `Blank`/`Newline` tokens have the same erasure, so differing
erasures witness disagreement even modulo such runs. -/
def dropWsToks (ts : List Tok) : List Tok :=
  ts.filter (fun t =>
    match t with
    | .blank => false
    | .newline => false
    | _ => true)

/-- Modelled from the spec: the scanning loop of `take_until_unbalanced` as
the specification describes it ("scans counting depth of open/close,
honoring backslash as a one-char escape (backslash and the following code
point are skipped).  Returns the prefix through the first unmatched close
(not consuming it).  Fails if the entire input is consumed with depth
nonzero").  A trailing backslash with no following code point just ends the
scan.  `acc` is the consumed prefix in reverse. -/
def takeUntilUnbalancedSpecGo (op cl : Char) : List Char → Int → List Char →
    Option (List Char × List Char)
  | [], depth, acc => if depth = 0 then some (acc.reverse, []) else none
  | c :: rest, depth, acc =>
      if c = '\\' then
        match rest with
        | [] => if depth = 0 then some ((c :: acc).reverse, []) else none
        | d :: rest2 => takeUntilUnbalancedSpecGo op cl rest2 depth (d :: c :: acc)
      else if c = op then takeUntilUnbalancedSpecGo op cl rest (depth + 1) (c :: acc)
      else if c = cl then
        (if depth = 0 then some (acc.reverse, c :: rest)
         else takeUntilUnbalancedSpecGo op cl rest (depth - 1) (c :: acc))
      else takeUntilUnbalancedSpecGo op cl rest depth (c :: acc)

/-- Modelled from the spec: `take_until_unbalanced` as specified. -/
def takeUntilUnbalancedSpec (op cl : Char) (i : List Char) :
    Option (List Char × List Char) :=
  takeUntilUnbalancedSpecGo op cl i 0 []

mutual

/-- No token in the subtree (root included) is an `H1` heading. -/
def treeNoH1 : HierarchicalToken → Bool
  | .mk t cs => !(t.tokenType == TokenType.headingH1) && treeNoH1L cs

/-- `treeNoH1` for every tree of a forest. -/
def treeNoH1L : List HierarchicalToken → Bool
  | [] => true
  | c :: rest => treeNoH1 c && treeNoH1L rest

end

mutual

/-- Claim-side date invariant below an `H1`: the section and all its
descendants carry the enclosing `H1` date and none of them is an `H1`. -/
def inheritOk (d : Date) : Section → Bool
  | .mk _ st _ sdate _ subs =>
      (sdate == d) && !(st == SectionType.h1) && inheritOkL d subs

/-- `inheritOk` for every section of a list. -/
def inheritOkL (d : Date) : List Section → Bool
  | [] => true
  | s :: rest => inheritOk d s && inheritOkL d rest

end

/-- The `Date` payloads among the title elements of a heading token. -/
def titleDatesOfTok (t : Tok) : List Date :=
  match secInfo t with
  | some (_, els) => titleDates els
  | none => []

/-- Claim-side date invariant of a top-level section: it is an `H1` whose
date is the unique `Date` among its title elements, and every descendant
section inherits that date. -/
def topDatedOk : Section → Bool
  | .mk title st _ sdate _ subs =>
      (st == SectionType.h1) && (titleDatesOfTok title == [sdate]) && inheritOkL sdate subs

/-- `topDatedOk` for every section of a list. -/
def topDatedOkL : List Section → Bool
  | [] => true
  | s :: rest => topDatedOk s && topDatedOkL rest

/-- Shape of every error of the section builder: an `MDPSyntaxError` whose
message names a heading title that has no date (zero `Date` tokens) or more
than one date (two or more `Date` tokens). -/
def sectionErrShape (e : MDPErr) : Prop :=
  ∃ t : Tok, (secInfo t).isSome ∧
    ((titleDatesOfTok t = [] ∧
        e = .mdpSyntaxError ("The section title " ++ t.toMarkdownString
          ++ " doesn\x27t contain a date.")) ∨
     (2 ≤ (titleDatesOfTok t).length ∧
        e = .mdpSyntaxError ("The section title " ++ t.toMarkdownString
          ++ " does contain more than one date.")))

/-- Whether a token is one of the four heading cases. -/
def isHeadingTok (t : Tok) : Bool :=
  (secInfo t).isSome

/-! ## Theorems -/

mutual

theorem Tok.eqOfBeq : ∀ (a b : Tok), Tok.beq a b = true → a = b := by
  intro a b h
  cases a <;> cases b <;> (try exact Bool.noConfusion h) <;> (try rfl)
  case blockRef.blockRef s t => exact congrArg _ (eq_of_beq h)
  case email.email s t => exact congrArg _ (eq_of_beq h)
  case hashtag.hashtag s t => exact congrArg _ (eq_of_beq h)
  case latex.latex s t => exact congrArg _ (eq_of_beq h)
  case link.link s t => exact congrArg _ (eq_of_beq h)
  case text.text s t => exact congrArg _ (eq_of_beq h)
  case rawHyperlink.rawHyperlink s t => exact congrArg _ (eq_of_beq h)
  case singleBacktick.singleBacktick s t => exact congrArg _ (eq_of_beq h)
  case tag.tag s t => exact congrArg _ (eq_of_beq h)
  case tripleBacktick.tripleBacktick s t => exact congrArg _ (eq_of_beq h)
  case date.date d e => exact congrArg _ (eq_of_beq h)
  case blockQuote.blockQuote ts us => exact congrArg _ (Tok.eqListOfBeq ts us h)
  case bold.bold ts us => exact congrArg _ (Tok.eqListOfBeq ts us h)
  case highlight.highlight ts us => exact congrArg _ (Tok.eqListOfBeq ts us h)
  case italic.italic ts us => exact congrArg _ (Tok.eqListOfBeq ts us h)
  case strike.strike ts us => exact congrArg _ (Tok.eqListOfBeq ts us h)
  case headingH1.headingH1 ts us => exact congrArg _ (Tok.eqListOfBeq ts us h)
  case headingH2.headingH2 ts us => exact congrArg _ (Tok.eqListOfBeq ts us h)
  case headingH3.headingH3 ts us => exact congrArg _ (Tok.eqListOfBeq ts us h)
  case headingH4.headingH4 ts us => exact congrArg _ (Tok.eqListOfBeq ts us h)
  case attr.attr n v m w =>
      have h' : (n == m && Tok.beqList v w) = true := h
      obtain ⟨h1, h2⟩ := Bool.and_eq_true_iff.mp h'
      rw [eq_of_beq h1, Tok.eqListOfBeq v w h2]
  case image.image a u b v =>
      have h' : (a == b && u == v) = true := h
      obtain ⟨h1, h2⟩ := Bool.and_eq_true_iff.mp h'
      rw [eq_of_beq h1, eq_of_beq h2]
  case markdownInternalLink.markdownInternalLink a u b v =>
      have h' : (a == b && u == v) = true := h
      obtain ⟨h1, h2⟩ := Bool.and_eq_true_iff.mp h'
      rw [eq_of_beq h1, eq_of_beq h2]
  case markdownExternalLink.markdownExternalLink a u b v =>
      have h' : (a == b && u == v) = true := h
      obtain ⟨h1, h2⟩ := Bool.and_eq_true_iff.mp h'
      rw [eq_of_beq h1, eq_of_beq h2]
  case task.task c s d t =>
      have h' : (Tok.beqList c d && s == t) = true := h
      obtain ⟨h1, h2⟩ := Bool.and_eq_true_iff.mp h'
      rw [Tok.eqListOfBeq c d h1, eq_of_beq h2]

theorem Tok.eqListOfBeq : ∀ (ts us : List Tok), Tok.beqList ts us = true → ts = us := by
  intro ts us h
  match ts, us with
  | [], [] => rfl
  | t :: ts, u :: us =>
      have h' : (Tok.beq t u && Tok.beqList ts us) = true := h
      obtain ⟨h1, h2⟩ := Bool.and_eq_true_iff.mp h'
      rw [Tok.eqOfBeq t u h1, Tok.eqListOfBeq ts us h2]
  | [], _ :: _ => exact Bool.noConfusion h
  | _ :: _, [] => exact Bool.noConfusion h

end

mutual

theorem Tok.beqRefl : ∀ a : Tok, Tok.beq a a = true := by
  intro a
  cases a <;> (try rfl) <;>
    (try exact beq_self_eq_true _) <;>
    (try exact Tok.beqListRefl _) <;>
    exact Bool.and_eq_true_iff.mpr ⟨by first | exact beq_self_eq_true _ | exact Tok.beqListRefl _,
      by first | exact beq_self_eq_true _ | exact Tok.beqListRefl _⟩

theorem Tok.beqListRefl : ∀ ts : List Tok, Tok.beqList ts ts = true := by
  intro ts
  match ts with
  | [] => rfl
  | t :: rest => exact Bool.and_eq_true_iff.mpr ⟨Tok.beqRefl t, Tok.beqListRefl rest⟩

end

/-- The embedded structural equality coincides with equality. -/
theorem Tok.beq_iff_eq {a b : Tok} : Tok.beq a b = true ↔ a = b :=
  ⟨Tok.eqOfBeq a b, fun h => h ▸ Tok.beqRefl a⟩


mutual

theorem Tok.containsNodeIff : ∀ (x t : Tok),
    (Tok.beq x t || x.contains t) = true ↔ (x = t ∨ t ∈ Tok.descList x) := by
  intro x t
  cases x
  case blockQuote cs =>
    have hl := Tok.containsListIff cs t
    constructor
    · intro h
      rcases Bool.or_eq_true_iff.mp h with h1 | h1
      · exact Or.inl (Tok.eqOfBeq _ _ h1)
      · exact Or.inr (hl.mp h1)
    · rintro (h1 | h1)
      · exact Bool.or_eq_true_iff.mpr (Or.inl (h1 ▸ Tok.beqRefl _))
      · exact Bool.or_eq_true_iff.mpr (Or.inr (hl.mpr h1))
  case bold cs =>
    have hl := Tok.containsListIff cs t
    constructor
    · intro h
      rcases Bool.or_eq_true_iff.mp h with h1 | h1
      · exact Or.inl (Tok.eqOfBeq _ _ h1)
      · exact Or.inr (hl.mp h1)
    · rintro (h1 | h1)
      · exact Bool.or_eq_true_iff.mpr (Or.inl (h1 ▸ Tok.beqRefl _))
      · exact Bool.or_eq_true_iff.mpr (Or.inr (hl.mpr h1))
  case highlight cs =>
    have hl := Tok.containsListIff cs t
    constructor
    · intro h
      rcases Bool.or_eq_true_iff.mp h with h1 | h1
      · exact Or.inl (Tok.eqOfBeq _ _ h1)
      · exact Or.inr (hl.mp h1)
    · rintro (h1 | h1)
      · exact Bool.or_eq_true_iff.mpr (Or.inl (h1 ▸ Tok.beqRefl _))
      · exact Bool.or_eq_true_iff.mpr (Or.inr (hl.mpr h1))
  case italic cs =>
    have hl := Tok.containsListIff cs t
    constructor
    · intro h
      rcases Bool.or_eq_true_iff.mp h with h1 | h1
      · exact Or.inl (Tok.eqOfBeq _ _ h1)
      · exact Or.inr (hl.mp h1)
    · rintro (h1 | h1)
      · exact Bool.or_eq_true_iff.mpr (Or.inl (h1 ▸ Tok.beqRefl _))
      · exact Bool.or_eq_true_iff.mpr (Or.inr (hl.mpr h1))
  case strike cs =>
    have hl := Tok.containsListIff cs t
    constructor
    · intro h
      rcases Bool.or_eq_true_iff.mp h with h1 | h1
      · exact Or.inl (Tok.eqOfBeq _ _ h1)
      · exact Or.inr (hl.mp h1)
    · rintro (h1 | h1)
      · exact Bool.or_eq_true_iff.mpr (Or.inl (h1 ▸ Tok.beqRefl _))
      · exact Bool.or_eq_true_iff.mpr (Or.inr (hl.mpr h1))
  case headingH1 cs =>
    have hl := Tok.containsListIff cs t
    constructor
    · intro h
      rcases Bool.or_eq_true_iff.mp h with h1 | h1
      · exact Or.inl (Tok.eqOfBeq _ _ h1)
      · exact Or.inr (hl.mp h1)
    · rintro (h1 | h1)
      · exact Bool.or_eq_true_iff.mpr (Or.inl (h1 ▸ Tok.beqRefl _))
      · exact Bool.or_eq_true_iff.mpr (Or.inr (hl.mpr h1))
  case headingH2 cs =>
    have hl := Tok.containsListIff cs t
    constructor
    · intro h
      rcases Bool.or_eq_true_iff.mp h with h1 | h1
      · exact Or.inl (Tok.eqOfBeq _ _ h1)
      · exact Or.inr (hl.mp h1)
    · rintro (h1 | h1)
      · exact Bool.or_eq_true_iff.mpr (Or.inl (h1 ▸ Tok.beqRefl _))
      · exact Bool.or_eq_true_iff.mpr (Or.inr (hl.mpr h1))
  case headingH3 cs =>
    have hl := Tok.containsListIff cs t
    constructor
    · intro h
      rcases Bool.or_eq_true_iff.mp h with h1 | h1
      · exact Or.inl (Tok.eqOfBeq _ _ h1)
      · exact Or.inr (hl.mp h1)
    · rintro (h1 | h1)
      · exact Bool.or_eq_true_iff.mpr (Or.inl (h1 ▸ Tok.beqRefl _))
      · exact Bool.or_eq_true_iff.mpr (Or.inr (hl.mpr h1))
  case headingH4 cs =>
    have hl := Tok.containsListIff cs t
    constructor
    · intro h
      rcases Bool.or_eq_true_iff.mp h with h1 | h1
      · exact Or.inl (Tok.eqOfBeq _ _ h1)
      · exact Or.inr (hl.mp h1)
    · rintro (h1 | h1)
      · exact Bool.or_eq_true_iff.mpr (Or.inl (h1 ▸ Tok.beqRefl _))
      · exact Bool.or_eq_true_iff.mpr (Or.inr (hl.mpr h1))
  case attr n cs =>
    have hl := Tok.containsListIff cs t
    constructor
    · intro h
      rcases Bool.or_eq_true_iff.mp h with h1 | h1
      · exact Or.inl (Tok.eqOfBeq _ _ h1)
      · exact Or.inr (hl.mp h1)
    · rintro (h1 | h1)
      · exact Bool.or_eq_true_iff.mpr (Or.inl (h1 ▸ Tok.beqRefl _))
      · exact Bool.or_eq_true_iff.mpr (Or.inr (hl.mpr h1))
  case task cs st =>
    have hl := Tok.containsListIff cs t
    constructor
    · intro h
      rcases Bool.or_eq_true_iff.mp h with h1 | h1
      · exact Or.inl (Tok.eqOfBeq _ _ h1)
      · exact Or.inr (hl.mp h1)
    · rintro (h1 | h1)
      · exact Bool.or_eq_true_iff.mpr (Or.inl (h1 ▸ Tok.beqRefl _))
      · exact Bool.or_eq_true_iff.mpr (Or.inr (hl.mpr h1))
  all_goals
    constructor
    · intro h
      rcases Bool.or_eq_true_iff.mp h with h1 | h1
      · exact Or.inl (Tok.eqOfBeq _ _ h1)
      · exact Or.inl (Tok.eqOfBeq _ _ h1)
    · rintro (h1 | h1)
      · exact Bool.or_eq_true_iff.mpr (Or.inl (h1 ▸ Tok.beqRefl _))
      · simp [Tok.descList] at h1

theorem Tok.containsListIff : ∀ (ts : List Tok) (t : Tok),
    Tok.containsList ts t = true ↔ t ∈ Tok.descListL ts := by
  intro ts t
  match ts with
  | [] =>
      constructor
      · intro h; exact absurd h (by rw [show Tok.containsList [] t = false from rfl]; simp)
      · intro h; simp [Tok.descListL] at h
  | x :: rest =>
      have hx := Tok.containsNodeIff x t
      have hr := Tok.containsListIff rest t
      rw [show Tok.containsList (x :: rest) t
            = ((Tok.beq x t || x.contains t) || Tok.containsList rest t) from rfl]
      rw [show Tok.descListL (x :: rest) = x :: (Tok.descList x ++ Tok.descListL rest) from rfl]
      constructor
      · intro h
        rcases Bool.or_eq_true_iff.mp h with h1 | h1
        · rcases hx.mp h1 with h2 | h2
          · simp [h2.symm]
          · simp [h2]
        · simp [hr.mp h1]
      · intro h
        rcases List.mem_cons.mp h with h1 | h1
        · exact Bool.or_eq_true_iff.mpr (Or.inl (hx.mpr (Or.inl h1.symm)))
        · rcases List.mem_append.mp h1 with h2 | h2
          · exact Bool.or_eq_true_iff.mpr (Or.inl (hx.mpr (Or.inr h2)))
          · exact Bool.or_eq_true_iff.mpr (Or.inr (hr.mpr h2))

end

/-- C5: the claim fails when the probe equals a child-bearing token itself:
`contains` on `Bold []` with needle `Bold []` returns `false` although the
two tokens are equal, refuting the claimed biconditional at this input. -/
theorem c5_counterexample :
    ¬ (((Tok.bold []).contains (Tok.bold []) = true) ↔
        (Tok.bold [] = Tok.bold [] ∨ Tok.bold [] ∈ (Tok.bold []).descList)) := by
  intro h
  exact Bool.noConfusion (h.mpr (Or.inl rfl))

/-- C5 (amended): `Token::contains` returns true iff, for a child-bearing
token (the container variants plus `Attribute` and `Task`), some direct or
indirect child equals the needle, and for every other token, iff the token
itself equals the needle; self-equality is not consulted for child-bearing
tokens. -/
theorem c5_contains_characterization (a t : Tok) :
    a.contains t = true ↔
      ((a.isChildBearing = true ∧ t ∈ a.descList) ∨
       (a.isChildBearing = false ∧ a = t)) := by
  cases a
  case blockQuote cs =>
    have hl := Tok.containsListIff cs t
    constructor
    · intro h
      exact Or.inl ⟨rfl, hl.mp h⟩
    · rintro (⟨_, hm⟩ | ⟨hf, _⟩)
      · exact hl.mpr hm
      · exact Bool.noConfusion hf
  case bold cs =>
    have hl := Tok.containsListIff cs t
    constructor
    · intro h
      exact Or.inl ⟨rfl, hl.mp h⟩
    · rintro (⟨_, hm⟩ | ⟨hf, _⟩)
      · exact hl.mpr hm
      · exact Bool.noConfusion hf
  case highlight cs =>
    have hl := Tok.containsListIff cs t
    constructor
    · intro h
      exact Or.inl ⟨rfl, hl.mp h⟩
    · rintro (⟨_, hm⟩ | ⟨hf, _⟩)
      · exact hl.mpr hm
      · exact Bool.noConfusion hf
  case italic cs =>
    have hl := Tok.containsListIff cs t
    constructor
    · intro h
      exact Or.inl ⟨rfl, hl.mp h⟩
    · rintro (⟨_, hm⟩ | ⟨hf, _⟩)
      · exact hl.mpr hm
      · exact Bool.noConfusion hf
  case strike cs =>
    have hl := Tok.containsListIff cs t
    constructor
    · intro h
      exact Or.inl ⟨rfl, hl.mp h⟩
    · rintro (⟨_, hm⟩ | ⟨hf, _⟩)
      · exact hl.mpr hm
      · exact Bool.noConfusion hf
  case headingH1 cs =>
    have hl := Tok.containsListIff cs t
    constructor
    · intro h
      exact Or.inl ⟨rfl, hl.mp h⟩
    · rintro (⟨_, hm⟩ | ⟨hf, _⟩)
      · exact hl.mpr hm
      · exact Bool.noConfusion hf
  case headingH2 cs =>
    have hl := Tok.containsListIff cs t
    constructor
    · intro h
      exact Or.inl ⟨rfl, hl.mp h⟩
    · rintro (⟨_, hm⟩ | ⟨hf, _⟩)
      · exact hl.mpr hm
      · exact Bool.noConfusion hf
  case headingH3 cs =>
    have hl := Tok.containsListIff cs t
    constructor
    · intro h
      exact Or.inl ⟨rfl, hl.mp h⟩
    · rintro (⟨_, hm⟩ | ⟨hf, _⟩)
      · exact hl.mpr hm
      · exact Bool.noConfusion hf
  case headingH4 cs =>
    have hl := Tok.containsListIff cs t
    constructor
    · intro h
      exact Or.inl ⟨rfl, hl.mp h⟩
    · rintro (⟨_, hm⟩ | ⟨hf, _⟩)
      · exact hl.mpr hm
      · exact Bool.noConfusion hf
  case attr n cs =>
    have hl := Tok.containsListIff cs t
    constructor
    · intro h
      exact Or.inl ⟨rfl, hl.mp h⟩
    · rintro (⟨_, hm⟩ | ⟨hf, _⟩)
      · exact hl.mpr hm
      · exact Bool.noConfusion hf
  case task cs st =>
    have hl := Tok.containsListIff cs t
    constructor
    · intro h
      exact Or.inl ⟨rfl, hl.mp h⟩
    · rintro (⟨_, hm⟩ | ⟨hf, _⟩)
      · exact hl.mpr hm
      · exact Bool.noConfusion hf
  all_goals
    constructor
    · intro h
      exact Or.inr ⟨rfl, Tok.eqOfBeq _ _ h⟩
    · rintro (⟨hf, _⟩ | ⟨_, he⟩)
      · exact Bool.noConfusion hf
      · exact he ▸ Tok.beqRefl _

theorem piGo_done_nil : ∀ (fuel : Nat) (cs : List Char) (i : Nat) (acc : List Tok)
    (rem : List Char) (ts : List Tok), piGo fuel cs i acc = .done rem ts → rem = [] := by
  intro fuel
  induction fuel with
  | zero => intro cs i acc rem ts h; exact POut.noConfusion h
  | succ f ih =>
      intro cs i acc rem ts h
      rw [piGo] at h
      split at h
      · injection h with h1 h2; exact h1.symm
      · split at h
        · split at h
          · exact POut.noConfusion h
          · exact ih _ _ _ _ _ h
          · exact ih _ _ _ _ _ h
        · injection h with h1 h2; exact h1.symm

theorem piGo_ne_fail : ∀ (fuel : Nat) (cs : List Char) (i : Nat) (acc : List Tok)
    (e : MPErr), piGo fuel cs i acc ≠ .fail e := by
  intro fuel
  induction fuel with
  | zero => intro cs i acc e h; exact POut.noConfusion h
  | succ f ih =>
      intro cs i acc e h
      rw [piGo] at h
      split at h
      · exact POut.noConfusion h
      · split at h
        · split at h
          · exact POut.noConfusion h
          · exact ih _ _ _ _ h
          · exact ih _ _ _ _ h
        · exact POut.noConfusion h

theorem parseInline_ne_fail (i : List Char) (e : MPErr) : parseInline i ≠ .fail e :=
  piGo_ne_fail _ i 0 [] e

theorem orElseP_fail {α : Type} {r : POut α} {q : Unit → POut α} {e : MPErr}
    (h : POut.orElseP r q = .fail e) : q () = .fail e := by
  cases r with
  | done rem v => exact POut.noConfusion h
  | panicked => exact POut.noConfusion h
  | fail e2 => exact h

/-- `parse_line` never returns a line-scoped error: the final inline
fallback consumes any line in full without failing. -/
theorem parseLine_ne_err (i : List Char) (e : MPErr) : parseLine i ≠ .err e := by
  intro h
  rw [parseLine] at h
  split at h
  · exact LineRes.noConfusion h
  · rename_i heq
    have h1 := orElseP_fail (orElseP_fail (orElseP_fail (orElseP_fail (orElseP_fail
      (orElseP_fail heq)))))
    cases hpi : parseInline i with
    | done rem ts =>
        have hnil := piGo_done_nil _ i 0 [] rem ts hpi
        subst hnil
        rw [hpi] at h1
        exact POut.noConfusion h1
    | fail e2 => exact parseInline_ne_fail i e2 hpi
    | panicked =>
        rw [hpi] at h1
        exact POut.noConfusion h1
  · exact LineRes.noConfusion h

theorem tokenizeLines_ne_err : ∀ (lines : List (List Char)) (n : Nat) (toks : List Tok)
    (e : MDPErr), tokenizeLines lines n toks [] ≠ .err e := by
  intro lines
  induction lines with
  | nil => intro n toks e h; exact TokRes.noConfusion h
  | cons line rest ih =>
      intro n toks e h
      rw [tokenizeLines] at h
      split at h
      · exact ih _ _ _ h
      · rename_i e2 heq
        exact parseLine_ne_err line e2 heq
      · exact TokRes.noConfusion h

/-- C10 (amended): `tokenize` never takes the `MultiError` branch - the
inline fallback accepts every line - but it does not return `Ok` on every
input either: inputs that reach `take_until_unbalanced` with a trailing
backslash make the scanner run past the end of the string and panic, so the
result is `Ok` or a panic. -/
theorem c10_tokenize_ok_or_panic (s : String) :
    tokenize s = .panicked ∨ ∃ ts, tokenize s = .ok ts := by
  cases h : tokenize s with
  | ok ts => exact Or.inr ⟨ts, rfl⟩
  | err e => exact absurd h (tokenizeLines_ne_err _ 0 [] e)
  | panicked => exact Or.inl rfl

/-- C10 counterexample: on the line `[a](\` the markdown-link parser hands
`\` to `take_until_unbalanced`, whose escape handling steps past the end of
the input and panics, so `tokenize` does not return `Ok` for this input. -/
theorem c10_counterexample :
    tokenize "[a](\\" = .panicked ∧ ∀ ts, tokenize "[a](\\" ≠ .ok ts :=
  ⟨rfl, fun _ h => TokRes.noConfusion h⟩

theorem many1CountHash_rep (n : Nat) (rest : List Char) (h1 : 1 ≤ n) :
    many1CountHash (List.replicate n '#' ++ ' ' :: rest) = .done (' ' :: rest) n := by
  have htw : (List.replicate n '#' ++ ' ' :: rest).takeWhile (fun c => decide (c = '#'))
      = List.replicate n '#' := by
    induction n with
    | zero => simp [List.takeWhile_cons]
    | succ k ih => simp only [List.replicate_succ, List.cons_append, List.takeWhile_cons]
                   simp [ih]
  rw [many1CountHash, htw]
  have hne : (List.replicate n '#').isEmpty = false := by
    cases n with
    | zero => omega
    | succ k => simp [List.replicate_succ]
  rw [hne]
  simp only [List.length_replicate, Bool.false_eq_true, if_false]
  rw [show List.drop n (List.replicate n '#' ++ ' ' :: rest) = ' ' :: rest from by
    have := List.drop_left (List.replicate n '#') (' ' :: rest)
    rwa [List.length_replicate] at this]

/-- C3 (amended): a line of five or more `#` followed by whitespace is
rejected by the `heading` parser with `InvalidMarkdownHeading` (or panics if
the inline parse of the remainder panics), but `tokenize` then falls back to
the inline parser, so the line tokenizes as a `Hashtag` plus `Text` and no
error is reported. -/
theorem c3_heading_rejected_but_tokenize_ok :
    (∀ (n : Nat) (rest : List Char), 5 ≤ n →
       headingP (List.replicate n '#' ++ ' ' :: rest) = .fail .invalidMarkdownHeading ∨
       headingP (List.replicate n '#' ++ ' ' :: rest) = .panicked) ∧
    tokenize "##### Titel" = .ok [.hashtag "####", .text " Titel", .newline] := by
  constructor
  · intro n rest h5
    obtain ⟨m, rfl⟩ : ∃ m, n = m + 5 := ⟨n - 5, by omega⟩
    have hstep : headingP (List.replicate (m + 5) '#' ++ ' ' :: rest) =
        (match parseInline ((' ' :: rest).drop (' ' :: rest.takeWhile isMultispace).length) with
         | .done _ _ => POut.fail .invalidMarkdownHeading
         | .fail e => POut.fail e
         | .panicked => POut.panicked) := by
      rw [headingP, many1CountHash_rep (m + 5) rest (by omega)]
      rfl
    rw [hstep]
    cases hpi : parseInline ((' ' :: rest).drop (' ' :: rest.takeWhile isMultispace).length) with
    | done rem2 content => exact Or.inl rfl
    | fail e2 => exact absurd hpi (parseInline_ne_fail _ e2)
    | panicked => exact Or.inr rfl
  · rfl

/-- C3 counterexample: the input `##### Titel` tokenizes without any error;
no `MarkdownParseError` is reported for the five-`#` line. -/
theorem c3_counterexample :
    tokenize "##### Titel" = .ok [.hashtag "####", .text " Titel", .newline] ∧
    ∀ e, tokenize "##### Titel" ≠ .err e :=
  ⟨rfl, fun _ h => TokRes.noConfusion h⟩

/-- C2: the round-trip fails on `#[[a b]]`.  Tokenization yields
`Hashtag "a b"`, whose markdown rendering `#a b` re-tokenizes to
`Hashtag "a"` and `Text " b"` - a difference that survives erasing all
`Blank`/`Newline` tokens, so the sequences differ even up to such runs. -/
theorem c2_roundtrip_failure :
    tokenize "#[[a b]]" = .ok [.hashtag "a b", .newline] ∧
    renderToks [.hashtag "a b", .newline] = "#a b\n" ∧
    tokenize "#a b\n" = .ok [.hashtag "a", .text " b", .newline, .blank, .newline] ∧
    dropWsToks [.hashtag "a b", .newline] ≠
      dropWsToks [.hashtag "a", .text " b", .newline, .blank, .newline] := by
  refine ⟨rfl, rfl, rfl, fun h => ?_⟩
  have hlen := congrArg List.length h
  rw [show (dropWsToks [.hashtag "a b", .newline]).length = 1 from rfl,
      show (dropWsToks [.hashtag "a", .text " b", .newline, .blank, .newline]).length = 2
        from rfl] at hlen
  omega

/-- C4 counterexample: for the token list `[H2[Text "a"], H1[Date]]` the H2
node ends up beneath the synthetic `Blank` root, which the section builder
skips without traversing its children, so the returned list is the single
H1 section and no H2 section appears anywhere in it. -/
theorem c4_counterexample :
    sectionsFromTokens [Tok.headingH2 [.text "a"], Tok.headingH1 [.date ⟨2022, 11, 2⟩]] =
      .ok [Section.mk (Tok.headingH1 [.date ⟨2022, 11, 2⟩]) .h1 [] ⟨2022, 11, 2⟩ [] []] ∧
    (∀ s, s ∈ [Section.mk (Tok.headingH1 [.date ⟨2022, 11, 2⟩]) .h1 [] ⟨2022, 11, 2⟩ [] []] →
       s.sectionType = .h1 ∧ s.subsections = []) := by
  refine ⟨rfl, ?_⟩
  intro s hs
  rw [List.mem_singleton] at hs
  subst hs
  exact ⟨rfl, rfl⟩

/-- C4 (amended): a top-level node whose token is not a heading produces no
`Section` and its children are not traversed: removing every non-heading
top-level node together with its whole subtree leaves the output of the
section builder unchanged. -/
theorem c4_nonheading_top_nodes_skipped_entirely :
    ∀ (f : List HierarchicalToken) (pd : Option Date),
      sectionsFromHierarchizedTokens (f.filter (fun n => isHeadingTok n.token)) pd =
        sectionsFromHierarchizedTokens f pd := by
  intro f
  induction f with
  | nil => intro pd; rfl
  | cons n rest ih =>
      intro pd
      obtain ⟨token, children⟩ := n
      rw [List.filter_cons]
      by_cases hh : isHeadingTok token = true
      · rw [if_pos (show (fun n => isHeadingTok n.token)
            (HierarchicalToken.mk token children) = true from hh)]
        rw [sectionsFromHierarchizedTokens, sectionsFromHierarchizedTokens]
        rw [ih pd]
      · rw [if_neg (show ¬ ((fun n => isHeadingTok n.token)
            (HierarchicalToken.mk token children) = true) from hh)]
        have hh2 : isHeadingTok token = false := eq_false_of_ne_true hh
        have hsec : secInfo token = none := by
          rw [isHeadingTok] at hh2
          exact Option.not_isSome_iff_eq_none.mp (by simp [hh2])
        rw [show sectionsFromHierarchizedTokens (HierarchicalToken.mk token children :: rest) pd
              = sectionsFromHierarchizedTokens rest pd from ?_]
        · exact ih pd
        · rw [sectionsFromHierarchizedTokens]
          rw [show sectionFromNode (HierarchicalToken.mk token children) pd
                = .ok none from by rw [sectionFromNode, hsec]]

/-- C9: `Task::is_finished` is true exactly for `Done` - a `Review` task
counts as unfinished - and the `Unfinished` filter keeps precisely the tasks
whose status is not `Done`, hence every `Review` task. -/
theorem c9_unfinished_includes_review :
    (∀ t : TaskItem, t.isFinished = true ↔ t.status = .done) ∧
    (∀ (tasks : List TaskItem) (t : TaskItem),
       t ∈ filterTasks tasks .unfinished ↔ (t ∈ tasks ∧ t.status ≠ .done)) := by
  have hfin : ∀ t : TaskItem, t.isFinished = true ↔ t.status = .done := by
    intro t
    obtain ⟨c, s⟩ := t
    cases s <;> simp [TaskItem.isFinished]
  refine ⟨hfin, ?_⟩
  intro tasks t
  rw [show filterTasks tasks .unfinished = tasks.filter (fun t => t.isUnfinished) from rfl]
  rw [List.mem_filter]
  constructor
  · rintro ⟨hmem, hun⟩
    refine ⟨hmem, fun hd => ?_⟩
    obtain ⟨c, s⟩ := t
    cases s <;> simp [TaskItem.isUnfinished, TaskItem.isFinished] at hun hd ⊢
  · rintro ⟨hmem, hd⟩
    refine ⟨hmem, ?_⟩
    obtain ⟨c, s⟩ := t
    cases s <;> simp [TaskItem.isUnfinished, TaskItem.isFinished] at hd ⊢

/-- Witness for C9 at a concrete `Review` task. -/
theorem c9_witness :
    TaskItem.mk [] .review ∈ filterTasks [TaskItem.mk [] .review] .unfinished :=
  (c9_unfinished_includes_review.2 [TaskItem.mk [] .review] (TaskItem.mk [] .review)).mpr
    ⟨List.mem_singleton.mpr rfl, fun h => TaskStatus.noConfusion h⟩

/-- C8: the urgency key is `Done = 0`, `Review = 10`, `Doing = 20`,
`Todo = 30`, and `TodoUntil d` gives `30 + days*10` for positive
`days = d - today` and `30 + |days|*100` otherwise; ordering by urgency
returns a permutation of the tasks that is sorted ascending by this key. -/
theorem c8_urgency_formula_and_sort :
    (∀ (c : List Tok) (today : Date),
       (TaskItem.mk c .done).urgency today = 0 ∧
       (TaskItem.mk c .review).urgency today = 10 ∧
       (TaskItem.mk c .doing).urgency today = 20 ∧
       (TaskItem.mk c .todo).urgency today = 30) ∧
    (∀ (c : List Tok) (today d : Date),
       (TaskItem.mk c (.todoUntil d)).urgency today =
         30 + (if d.toDays - today.toDays > 0 then (d.toDays - today.toDays) * 10
               else ((d.toDays - today.toDays).natAbs : Int) * 100)) ∧
    (∀ (today : Date) (tasks : List TaskItem),
       (orderTasks today tasks .urgency).Perm tasks ∧
       List.Pairwise (fun a b => a.urgency today ≤ b.urgency today)
         (orderTasks today tasks .urgency)) := by
  refine ⟨fun c today => ⟨rfl, rfl, rfl, rfl⟩, fun c today d => rfl, fun today tasks => ?_⟩
  constructor
  · exact List.mergeSort_perm tasks _
  · have hs := @List.sorted_mergeSort TaskItem
      (fun a b : TaskItem => decide (a.urgency today ≤ b.urgency today))
      (fun a b c hab hbc =>
        decide_eq_true (le_trans (of_decide_eq_true hab) (of_decide_eq_true hbc)))
      (fun a b => by
        rcases Int.le_total (a.urgency today) (b.urgency today) with h | h <;> simp [h])
      tasks
    exact hs.imp (fun h => of_decide_eq_true h)

theorem emailGo_spec (valid : List Char → Bool) (input : List Char) :
    ∀ k : Nat, k ≤ min 50 input.length →
    ((∀ rem c, emailGo valid input (input.take 50) k = .done rem c →
        5 ≤ c.length ∧ c.length ≤ k ∧ c = input.take c.length ∧
        rem = input.drop c.length ∧ c.contains ' ' = false ∧ valid c = true ∧
        (∀ j, c.length < j → j ≤ k →
           ((input.take j).contains ' ' = true ∨ valid (input.take j) = false))) ∧
     (emailGo valid input (input.take 50) k = .fail .invalidEmailAddress ↔
        (∀ j, 5 ≤ j → j ≤ k →
           ((input.take j).contains ' ' = true ∨ valid (input.take j) = false))) ∧
     emailGo valid input (input.take 50) k ≠ .panicked) := by
  intro k
  induction k with
  | zero =>
      intro _
      refine ⟨fun rem c h => POut.noConfusion h, ?_, fun h => POut.noConfusion h⟩
      constructor
      · intro _ j h5 hj; omega
      · intro _; rfl
  | succ k ih =>
      intro hk
      have hk' : k ≤ min 50 input.length := by omega
      have ihs := ih hk'
      have hcand : (input.take 50).take (k + 1) = input.take (k + 1) := by
        rw [List.take_take]
        congr 1
        omega
      have hlen : (input.take (k + 1)).length = k + 1 := by
        rw [List.length_take]
        omega
      rw [emailGo]
      by_cases h5 : k + 1 < 5
      · rw [if_pos h5]
        refine ⟨fun rem c h => POut.noConfusion h, ?_, fun h => POut.noConfusion h⟩
        constructor
        · intro _ j hj5 hjk; omega
        · intro _; rfl
      · rw [if_neg h5]
        rw [hcand]
        by_cases hsp : (input.take (k + 1)).contains ' ' = true
        · rw [if_pos hsp]
          refine ⟨fun rem c h => ?_, ?_, ihs.2.2⟩
          · obtain ⟨a1, a2, a3, a4, a5, a6, a7⟩ := ihs.1 rem c h
            refine ⟨a1, by omega, a3, a4, a5, a6, fun j hj1 hj2 => ?_⟩
            by_cases hje : j = k + 1
            · subst hje; exact Or.inl hsp
            · exact a7 j hj1 (by omega)
          · rw [ihs.2.1]
            constructor
            · intro hall j hj1 hj2
              by_cases hje : j = k + 1
              · subst hje; exact Or.inl hsp
              · exact hall j hj1 (by omega)
            · intro hall j hj1 hj2
              exact hall j hj1 (by omega)
        · rw [if_neg hsp]
          by_cases hv : valid (input.take (k + 1)) = true
          · rw [if_pos hv]
            refine ⟨fun rem c h => ?_, ?_, fun h => POut.noConfusion h⟩
            · injection h with h1 h2
              subst h1; subst h2
              refine ⟨by omega, by omega, by rw [hlen], by rw [hlen], ?_, hv,
                fun j hj1 hj2 => by rw [hlen] at hj1; omega⟩
              exact eq_false_of_ne_true hsp
            · constructor
              · intro h; exact POut.noConfusion h
              · intro hall
                rcases hall (k + 1) (by omega) le_rfl with hbad | hbad
                · exact absurd hbad hsp
                · rw [hv] at hbad; exact Bool.noConfusion hbad
          · rw [if_neg hv]
            refine ⟨fun rem c h => ?_, ?_, ihs.2.2⟩
            · obtain ⟨a1, a2, a3, a4, a5, a6, a7⟩ := ihs.1 rem c h
              refine ⟨a1, by omega, a3, a4, a5, a6, fun j hj1 hj2 => ?_⟩
              by_cases hje : j = k + 1
              · subst hje; exact Or.inr (eq_false_of_ne_true hv)
              · exact a7 j hj1 (by omega)
            · rw [ihs.2.1]
              constructor
              · intro hall j hj1 hj2
                by_cases hje : j = k + 1
                · subst hje; exact Or.inr (eq_false_of_ne_true hv)
                · exact hall j hj1 (by omega)
              · intro hall j hj1 hj2
                exact hall j hj1 (by omega)

/-- C7: the email parser tries candidate prefixes of decreasing length from
`min(50, length)` down to 5, skips candidates containing a space, succeeds
with the longest remaining candidate the validator accepts, consuming
exactly it, and fails precisely when every candidate in range contains a
space or fails validation; in particular no successful match contains a
space.  The validator is the external email crate, kept abstract. -/
theorem c7_email_spec (valid : List Char → Bool) (input : List Char) :
    (∀ rem c, emailP valid input = .done rem c →
       5 ≤ c.length ∧ c.length ≤ min 50 input.length ∧
       c = input.take c.length ∧ rem = input.drop c.length ∧
       c.contains ' ' = false ∧ valid c = true ∧
       (∀ j, c.length < j → j ≤ min 50 input.length →
          ((input.take j).contains ' ' = true ∨ valid (input.take j) = false))) ∧
    (emailP valid input = .fail .invalidEmailAddress ↔
       (∀ j, 5 ≤ j → j ≤ min 50 input.length →
          ((input.take j).contains ' ' = true ∨ valid (input.take j) = false))) ∧
    emailP valid input ≠ .panicked := by
  have hlen50 : (input.take 50).length = min 50 input.length := List.length_take 50 input
  have h := emailGo_spec valid input (min 50 input.length) le_rfl
  rw [show emailP valid input
      = emailGo valid input (input.take 50) (input.take 50).length from rfl, hlen50]
  exact h

/-- Witness for C7 at a concrete validator and input. -/
theorem c7_witness :
    5 ≤ "a@b.c".data.length ∧ "a@b.c".data.contains ' ' = false := by
  have h := (c7_email_spec (fun cs => decide (cs = "a@b.c".data)) "a@b.cd".data).1
    "d".data "a@b.c".data rfl
  exact ⟨h.1, h.2.2.2.2.1⟩


theorem takeUntilUnbalancedGo_spec (op cl : Char) :
    ∀ (l : List Char) (depth : Int) (acc : List Char),
      takeUntilUnbalancedGo op cl l depth acc ≠ .panicked →
      (match takeUntilUnbalancedGo op cl l depth acc with
       | .done rem p =>
           takeUntilUnbalancedSpecGo op cl l depth acc = some (p, rem) ∧
           acc.reverse ++ l = p ++ rem ∧ (rem = [] ∨ ∃ rest, rem = cl :: rest)
       | .fail e =>
           e = .unbalancedBracketCount ∧
           takeUntilUnbalancedSpecGo op cl l depth acc = none
       | .panicked => False) := by
  intro l depth acc
  induction l, depth, acc using takeUntilUnbalancedGo.induct op cl with
  | case1 acc =>
      intro _
      exact ⟨rfl, rfl, Or.inl rfl⟩
  | case2 depth acc hd =>
      intro _
      have hstep : takeUntilUnbalancedGo op cl [] depth acc
          = .fail .unbalancedBracketCount := by
        rw [takeUntilUnbalancedGo.eq_def]; simp [hd]
      have hsteps : takeUntilUnbalancedSpecGo op cl [] depth acc = none := by
        rw [takeUntilUnbalancedSpecGo.eq_def]; simp [hd]
      rw [hstep, hsteps]
      exact ⟨rfl, rfl⟩
  | case3 depth acc =>
      intro hnp
      exact absurd rfl hnp
  | case4 depth acc c rest ih =>
      intro hnp
      have hstep : takeUntilUnbalancedGo op cl ('\\' :: c :: rest) depth acc
          = takeUntilUnbalancedGo op cl rest depth (c :: '\\' :: acc) := rfl
      have hsteps : takeUntilUnbalancedSpecGo op cl ('\\' :: c :: rest) depth acc
          = takeUntilUnbalancedSpecGo op cl rest depth (c :: '\\' :: acc) := rfl
      rw [hstep] at hnp ⊢
      rw [hsteps]
      have ih2 := ih hnp
      cases hgo : takeUntilUnbalancedGo op cl rest depth (c :: '\\' :: acc) with
      | done rem p =>
          rw [hgo] at ih2
          refine ⟨ih2.1, ?_, ih2.2.2⟩
          have h2 := ih2.2.1
          simp only [List.reverse_cons, List.append_assoc] at h2
          simpa using h2
      | fail e =>
          rw [hgo] at ih2
          exact ih2
      | panicked =>
          rw [hgo] at hnp
          exact absurd rfl hnp
  | case5 rest depth acc hop ih =>
      intro hnp
      have hstep : takeUntilUnbalancedGo op cl (op :: rest) depth acc
          = takeUntilUnbalancedGo op cl rest (depth + 1) (op :: acc) := by
        rw [takeUntilUnbalancedGo.eq_def]; simp [hop]
      have hsteps : takeUntilUnbalancedSpecGo op cl (op :: rest) depth acc
          = takeUntilUnbalancedSpecGo op cl rest (depth + 1) (op :: acc) := by
        rw [takeUntilUnbalancedSpecGo.eq_def]; simp [hop]
      rw [hstep] at hnp ⊢
      rw [hsteps]
      have ih2 := ih hnp
      cases hgo : takeUntilUnbalancedGo op cl rest (depth + 1) (op :: acc) with
      | done rem p =>
          rw [hgo] at ih2
          refine ⟨ih2.1, ?_, ih2.2.2⟩
          have h2 := ih2.2.1
          simp only [List.reverse_cons, List.append_assoc] at h2
          simpa using h2
      | fail e =>
          rw [hgo] at ih2
          exact ih2
      | panicked =>
          rw [hgo] at hnp
          exact absurd rfl hnp
  | case6 rest depth acc hdep hclb hclo =>
      intro _
      have hstep : takeUntilUnbalancedGo op cl (cl :: rest) depth acc
          = .done (cl :: rest) acc.reverse := by
        rw [takeUntilUnbalancedGo.eq_def]; simp [hclb, hclo, hdep]
      have hsteps : takeUntilUnbalancedSpecGo op cl (cl :: rest) depth acc
          = some (acc.reverse, cl :: rest) := by
        rw [takeUntilUnbalancedSpecGo.eq_def]
        simp [hclb, hclo, show depth = 0 by omega]
      rw [hstep, hsteps]
      exact ⟨rfl, rfl, Or.inr ⟨rest, rfl⟩⟩
  | case7 rest depth acc hdep hclb hclo ih =>
      intro hnp
      have hstep : takeUntilUnbalancedGo op cl (cl :: rest) depth acc
          = takeUntilUnbalancedGo op cl rest (depth - 1) (cl :: acc) := by
        rw [takeUntilUnbalancedGo.eq_def]; simp [hclb, hclo, hdep]
      have hsteps : takeUntilUnbalancedSpecGo op cl (cl :: rest) depth acc
          = takeUntilUnbalancedSpecGo op cl rest (depth - 1) (cl :: acc) := by
        rw [takeUntilUnbalancedSpecGo.eq_def]
        simp [hclb, hclo, show ¬ depth = 0 by omega]
      rw [hstep] at hnp ⊢
      rw [hsteps]
      have ih2 := ih hnp
      cases hgo : takeUntilUnbalancedGo op cl rest (depth - 1) (cl :: acc) with
      | done rem p =>
          rw [hgo] at ih2
          refine ⟨ih2.1, ?_, ih2.2.2⟩
          have h2 := ih2.2.1
          simp only [List.reverse_cons, List.append_assoc] at h2
          simpa using h2
      | fail e =>
          rw [hgo] at ih2
          exact ih2
      | panicked =>
          rw [hgo] at hnp
          exact absurd rfl hnp
  | case8 c rest depth acc hcb hco hcc ih =>
      intro hnp
      have hstep : takeUntilUnbalancedGo op cl (c :: rest) depth acc
          = takeUntilUnbalancedGo op cl rest depth (c :: acc) := by
        rw [takeUntilUnbalancedGo.eq_def]; simp [hcb, hco, hcc]
      have hsteps : takeUntilUnbalancedSpecGo op cl (c :: rest) depth acc
          = takeUntilUnbalancedSpecGo op cl rest depth (c :: acc) := by
        rw [takeUntilUnbalancedSpecGo.eq_def]; simp [hcb, hco, hcc]
      rw [hstep] at hnp ⊢
      rw [hsteps]
      have ih2 := ih hnp
      cases hgo : takeUntilUnbalancedGo op cl rest depth (c :: acc) with
      | done rem p =>
          rw [hgo] at ih2
          refine ⟨ih2.1, ?_, ih2.2.2⟩
          have h2 := ih2.2.1
          simp only [List.reverse_cons, List.append_assoc] at h2
          simpa using h2
      | fail e =>
          rw [hgo] at ih2
          exact ih2
      | panicked =>
          rw [hgo] at hnp
          exact absurd rfl hnp

/-- C6 (amended): whenever `take_until_unbalanced` does not panic, it
behaves exactly as specified - escapes skip the backslash and the following
character, a successful parse returns the prefix before the first unmatched
closing bracket without consuming it (the remaining input is empty or
starts with that bracket, and prefix plus remainder reassemble the input),
and it fails exactly when the whole input is scanned with nonzero depth.
The exception the counterexample forces: a backslash as the scanner's last
character makes the index overrun the string and the source panics. -/
theorem c6_take_until_unbalanced_spec (op cl : Char) (i : List Char)
    (h : takeUntilUnbalanced op cl i ≠ .panicked) :
    (match takeUntilUnbalanced op cl i with
     | .done rem p =>
         takeUntilUnbalancedSpec op cl i = some (p, rem) ∧
         i = p ++ rem ∧ (rem = [] ∨ ∃ rest, rem = cl :: rest)
     | .fail e =>
         e = .unbalancedBracketCount ∧ takeUntilUnbalancedSpec op cl i = none
     | .panicked => False) := by
  have hgo := takeUntilUnbalancedGo_spec op cl i 0 [] h
  rw [takeUntilUnbalanced, takeUntilUnbalancedSpec]
  cases hg : takeUntilUnbalancedGo op cl i 0 [] with
  | done rem p =>
      rw [hg] at hgo
      exact ⟨hgo.1, by simpa using hgo.2.1, hgo.2.2⟩
  | fail e =>
      rw [hg] at hgo
      exact hgo
  | panicked =>
      rw [takeUntilUnbalanced, hg] at h
      exact absurd rfl h

/-- Witness for C6 on a link URL with an escaped closing bracket. -/
theorem c6_witness :
    takeUntilUnbalancedSpec '(' ')' "b\\)c)".data = some ("b\\)c".data, ")".data) ∧
    "b\\)c)".data = "b\\)c".data ++ ")".data := by
  have h := c6_take_until_unbalanced_spec '(' ')' "b\\)c)".data
    (fun hp => POut.noConfusion hp)
  rw [show takeUntilUnbalanced '(' ')' "b\\)c)".data
      = .done ")".data "b\\)c".data from rfl] at h
  exact ⟨h.1, h.2.1⟩

/-- C6 counterexample: on the input `a\` (trailing backslash) the scanner
neither succeeds nor fails as the claim requires - the escape steps past
the end of the string and the source panics - while the specified behavior
is success on the whole input at depth zero. -/
theorem c6_counterexample :
    takeUntilUnbalanced '(' ')' "a\\".data = .panicked ∧
    takeUntilUnbalancedSpec '(' ')' "a\\".data = some ("a\\".data, []) ∧
    (∀ rem p, takeUntilUnbalanced '(' ')' "a\\".data ≠ .done rem p) ∧
    (∀ e, takeUntilUnbalanced '(' ')' "a\\".data ≠ .fail e) :=
  ⟨rfl, rfl, fun _ _ h => POut.noConfusion h, fun _ h => POut.noConfusion h⟩

theorem treeNoH1L_iff (l : List HierarchicalToken) :
    treeNoH1L l = true ↔ ∀ n ∈ l, treeNoH1 n = true := by
  induction l with
  | nil => simp [treeNoH1L]
  | cons n rest ih =>
      rw [treeNoH1L, Bool.and_eq_true, ih]
      simp

theorem treeNoH1_def (n : HierarchicalToken) :
    treeNoH1 n = true ↔
      (n.token.tokenType ≠ .headingH1 ∧ treeNoH1L n.children = true) := by
  obtain ⟨t, cs⟩ := n
  rw [treeNoH1, Bool.and_eq_true]
  simp [HierarchicalToken.token, HierarchicalToken.children]

theorem treeNoH1L_append (a b : List HierarchicalToken) :
    treeNoH1L (a ++ b) = true ↔ (treeNoH1L a = true ∧ treeNoH1L b = true) := by
  rw [treeNoH1L_iff, treeNoH1L_iff, treeNoH1L_iff]
  constructor
  · intro h
    exact ⟨fun n hn => h n (List.mem_append_left _ hn),
           fun n hn => h n (List.mem_append_right _ hn)⟩
  · rintro ⟨h1, h2⟩ n hn
    rcases List.mem_append.mp hn with hh | hh
    · exact h1 n hh
    · exact h2 n hh

theorem splitAtGo_join (tt : TokenType) :
    ∀ (l : List HierarchicalToken) (groups : List (List HierarchicalToken))
      (current : List HierarchicalToken),
      (splitAtGo tt l groups current).flatten = groups.flatten ++ current ++ l := by
  intro l
  induction l with
  | nil =>
      intro groups current
      rw [splitAtGo]
      by_cases hc : current.isEmpty
      · rw [if_pos hc, List.isEmpty_iff.mp hc]
        simp
      · rw [if_neg hc]
        simp
  | cons t rest ih =>
      intro groups current
      rw [splitAtGo]
      by_cases htt : t.token.tokenType = tt
      · rw [if_pos htt]
        by_cases hc : current.isEmpty
        · rw [if_pos hc, ih, List.isEmpty_iff.mp hc]
          simp
        · rw [if_neg hc, ih]
          simp
      · rw [if_neg htt, ih]
        simp

theorem splitAtMarkdownElement_mem (l : List HierarchicalToken) (tt : TokenType)
    (g : List HierarchicalToken) (hg : g ∈ splitAtMarkdownElement l tt)
    (n : HierarchicalToken) (hn : n ∈ g) : n ∈ l := by
  have hj := splitAtGo_join tt l [] []
  rw [show splitAtMarkdownElement l tt = splitAtGo tt l [] [] from rfl] at hg
  have : n ∈ (splitAtGo tt l [] []).flatten := List.mem_flatten.mpr ⟨g, hg, hn⟩
  rw [hj] at this
  simpa using this

theorem splitAtGo_tail (tt : TokenType) :
    ∀ (l : List HierarchicalToken) (groups : List (List HierarchicalToken))
      (current : List HierarchicalToken),
      (∀ g ∈ groups, ∀ n ∈ g.tail, n.token.tokenType ≠ tt) →
      (∀ n ∈ current.tail, n.token.tokenType ≠ tt) →
      ∀ g ∈ splitAtGo tt l groups current, ∀ n ∈ g.tail, n.token.tokenType ≠ tt := by
  intro l
  induction l with
  | nil =>
      intro groups current hg hc g hmem
      rw [splitAtGo] at hmem
      by_cases hce : current.isEmpty
      · rw [if_pos hce] at hmem
        exact hg g hmem
      · rw [if_neg hce] at hmem
        rcases List.mem_append.mp hmem with hh | hh
        · exact hg g hh
        · rw [List.mem_singleton.mp hh]
          exact hc
  | cons t rest ih =>
      intro groups current hg hc g hmem
      rw [splitAtGo] at hmem
      by_cases htt : t.token.tokenType = tt
      · rw [if_pos htt] at hmem
        by_cases hce : current.isEmpty
        · rw [if_pos hce] at hmem
          refine ih groups [t] hg ?_ g hmem
          intro n hn
          simp at hn
        · rw [if_neg hce] at hmem
          refine ih (groups ++ [current]) [t] ?_ ?_ g hmem
          · intro g2 hg2
            rcases List.mem_append.mp hg2 with hh | hh
            · exact hg g2 hh
            · rw [List.mem_singleton.mp hh]
              exact hc
          · intro n hn
            simp at hn
      · rw [if_neg htt] at hmem
        refine ih groups (current ++ [t]) hg ?_ g hmem
        intro n hn
        rcases hcur : current with _ | ⟨c0, ctl⟩
        · subst hcur
          simp at hn
        · subst hcur
          rw [List.cons_append, List.tail_cons] at hn
          rcases List.mem_append.mp hn with hh | hh
          · exact hc n (by simpa using hh)
          · rw [List.mem_singleton.mp hh]
            exact htt

theorem splitAtMarkdownElement_tail (l : List HierarchicalToken) (tt : TokenType) :
    ∀ g ∈ splitAtMarkdownElement l tt, ∀ n ∈ g.tail, n.token.tokenType ≠ tt := by
  rw [show splitAtMarkdownElement l tt = splitAtGo tt l [] [] from rfl]
  exact splitAtGo_tail tt l [] [] (by intro g hg; simp at hg) (by intro n hn; simp at hn)

theorem splitAtGo_no_tt (tt : TokenType) :
    ∀ (l : List HierarchicalToken) (groups : List (List HierarchicalToken))
      (current : List HierarchicalToken),
      (∀ n ∈ l, n.token.tokenType ≠ tt) →
      splitAtGo tt l groups current
        = if (current ++ l).isEmpty then groups else groups ++ [current ++ l] := by
  intro l
  induction l with
  | nil =>
      intro groups current _
      rw [splitAtGo, List.append_nil]
  | cons t rest ih =>
      intro groups current hno
      rw [splitAtGo]
      rw [if_neg (hno t (List.mem_cons_self t rest))]
      rw [ih groups (current ++ [t]) (fun n hn => hno n (List.mem_cons_of_mem t hn))]
      simp

theorem splitAtMarkdownElement_no_tt (l : List HierarchicalToken) (tt : TokenType)
    (hl : l ≠ []) (hno : ∀ n ∈ l, n.token.tokenType ≠ tt) :
    splitAtMarkdownElement l tt = [l] := by
  rw [show splitAtMarkdownElement l tt = splitAtGo tt l [] [] from rfl]
  rw [splitAtGo_no_tt tt l [] [] hno]
  simp [hl]

theorem hierRec_nil_eq (budget : Nat) (H : TokenHierarchy) (status : HierarchizeStatus)
    (ins : Bool) :
    hierarchizeRecursiveOneHierarchyLevel budget H [] status ins = [] := by
  cases budget <;> rfl

theorem hierRec_none_eq (budget : Nat) (H : TokenHierarchy) (a : HierarchicalToken)
    (l : List HierarchicalToken) (status : HierarchizeStatus) (ins : Bool)
    (htt : H.tokenTypeAt status.hierarchyLevel = none) :
    hierarchizeRecursiveOneHierarchyLevel budget H (a :: l) status ins = a :: l := by
  cases budget with
  | zero => rw [hierarchizeRecursiveOneHierarchyLevel, htt]
  | succ b => rw [hierarchizeRecursiveOneHierarchyLevel, htt]

theorem hierRec_zero_cons_eq (H : TokenHierarchy) (a : HierarchicalToken)
    (l : List HierarchicalToken) (status : HierarchizeStatus) (ins : Bool)
    (tt : TokenType) (htt : H.tokenTypeAt status.hierarchyLevel = some tt) :
    hierarchizeRecursiveOneHierarchyLevel 0 H (a :: l) status ins
      = (splitAtMarkdownElement (a :: l) tt).flatMap
          (fun g => hierarchizeOneGroup H g status ins) := by
  rw [hierarchizeRecursiveOneHierarchyLevel, htt]

theorem hierRec_succ_cons_eq (b : Nat) (H : TokenHierarchy) (a : HierarchicalToken)
    (l : List HierarchicalToken) (status : HierarchizeStatus) (ins : Bool)
    (tt : TokenType) (htt : H.tokenTypeAt status.hierarchyLevel = some tt) :
    hierarchizeRecursiveOneHierarchyLevel (b + 1) H (a :: l) status ins
      = ((splitAtMarkdownElement (a :: l) tt).flatMap
          (fun g => hierarchizeOneGroup H g status ins)).map
          (fun t =>
            match status.oneRecursionLevelDeeper with
            | some nextStatus =>
                HierarchicalToken.mk t.token
                  (hierarchizeRecursiveOneHierarchyLevel b H t.children nextStatus false)
            | none => t) := by
  rw [hierarchizeRecursiveOneHierarchyLevel, htt]

theorem hierarchizeOneGroup_treeNoH1 (H : TokenHierarchy) (g : List HierarchicalToken)
    (status : HierarchizeStatus) (ins : Bool)
    (hall : ∀ n ∈ g, treeNoH1 n = true) :
    ∀ n ∈ hierarchizeOneGroup H g status ins, treeNoH1 n = true := by
  intro n hn
  rw [hierarchizeOneGroup] at hn
  by_cases hge : g.isEmpty
  · rw [if_pos hge] at hn
    simp at hn
  · rw [if_neg hge] at hn
    cases htt : H.tokenTypeAt status.hierarchyLevel with
    | none =>
        rw [htt] at hn
        exact hall n hn
    | some tt =>
        rw [htt] at hn
        cases g with
        | nil => simp at hn
        | cons token rest =>
            simp only [] at hn
            by_cases hty : token.token.tokenType = tt
            · rw [if_pos hty] at hn
              rcases List.mem_cons.mp hn with hh | hh
              · subst hh
                have htok := hall token (List.mem_cons_self _ _)
                rw [treeNoH1_def] at htok
                rw [treeNoH1_def]
                refine ⟨htok.1, ?_⟩
                simp only [HierarchicalToken.children, HierarchicalToken.token]
                rw [treeNoH1L_append]
                refine ⟨htok.2, ?_⟩
                rw [treeNoH1L_iff]
                intro m hm
                exact hall m (List.mem_cons_of_mem _ (List.mem_of_mem_filter hm))
              · exact hall n (List.mem_cons_of_mem _ (List.mem_of_mem_filter hh))
            · rw [if_neg hty] at hn
              by_cases hins : ins = true
              · rw [if_pos hins] at hn
                rw [List.mem_singleton.mp hn]
                rw [treeNoH1_def]
                constructor
                · intro hcontra
                  exact TokenType.noConfusion hcontra
                · simp only [HierarchicalToken.children]
                  rw [treeNoH1L_iff]
                  exact hall
              · rw [if_neg hins] at hn
                exact hall n hn

theorem hierRec_treeNoH1 : ∀ (budget : Nat) (H : TokenHierarchy)
    (hts : List HierarchicalToken) (status : HierarchizeStatus) (ins : Bool),
    treeNoH1L hts = true →
    treeNoH1L (hierarchizeRecursiveOneHierarchyLevel budget H hts status ins) = true := by
  intro budget
  induction budget with
  | zero =>
      intro H hts status ins hall
      cases hts with
      | nil => rw [hierRec_nil_eq]; rfl
      | cons a l =>
          cases htt : H.tokenTypeAt status.hierarchyLevel with
          | none => rw [hierRec_none_eq 0 H a l status ins htt]; exact hall
          | some tt =>
              rw [hierRec_zero_cons_eq H a l status ins tt htt]
              rw [treeNoH1L_iff]
              intro n hn
              rcases List.mem_flatMap.mp hn with ⟨g, hgmem, htg⟩
              refine hierarchizeOneGroup_treeNoH1 H g status ins ?_ n htg
              intro m hm
              have := splitAtMarkdownElement_mem (a :: l) tt g hgmem m hm
              exact (treeNoH1L_iff (a :: l)).mp hall m this
  | succ b ih =>
      intro H hts status ins hall
      cases hts with
      | nil => rw [hierRec_nil_eq]; rfl
      | cons a l =>
          cases htt : H.tokenTypeAt status.hierarchyLevel with
          | none => rw [hierRec_none_eq (b + 1) H a l status ins htt]; exact hall
          | some tt =>
              rw [hierRec_succ_cons_eq b H a l status ins tt htt]
              rw [treeNoH1L_iff]
              intro n hn
              rcases List.mem_map.mp hn with ⟨t, hmem, hmap⟩
              rcases List.mem_flatMap.mp hmem with ⟨g, hgmem, htg⟩
              have htn : treeNoH1 t = true := by
                refine hierarchizeOneGroup_treeNoH1 H g status ins ?_ t htg
                intro m hm
                have := splitAtMarkdownElement_mem (a :: l) tt g hgmem m hm
                exact (treeNoH1L_iff (a :: l)).mp hall m this
              subst hmap
              cases hrd : status.oneRecursionLevelDeeper with
              | none => exact htn
              | some nextStatus =>
                  rw [treeNoH1_def] at htn ⊢
                  simp only [HierarchicalToken.token, HierarchicalToken.children]
                  exact ⟨htn.1, ih H t.children nextStatus false htn.2⟩

theorem hierarchizeOneGroup_top_shape (H : TokenHierarchy) (g : List HierarchicalToken)
    (status : HierarchizeStatus) (tt : TokenType)
    (htt : H.tokenTypeAt status.hierarchyLevel = some tt)
    (hpos : H.position tt = 0) :
    ∀ n ∈ hierarchizeOneGroup H g status true,
      n.token.tokenType = tt ∨ n.token = Tok.blank := by
  intro n hn
  rw [hierarchizeOneGroup] at hn
  by_cases hge : g.isEmpty
  · rw [if_pos hge] at hn
    simp at hn
  · rw [if_neg hge, htt] at hn
    cases g with
    | nil => simp at hn
    | cons token rest =>
        simp only [] at hn
        by_cases hty : token.token.tokenType = tt
        · rw [if_pos hty] at hn
          rcases List.mem_cons.mp hn with hh | hh
          · subst hh
            exact Or.inl hty
          · exfalso
            have hf := List.mem_filter.mp hh
            have hlt : H.position n.token.tokenType < H.position token.token.tokenType := by
              have := hf.2
              simpa using this
            rw [hty, hpos] at hlt
            omega
        · rw [if_neg hty, if_pos trivial] at hn
          rw [List.mem_singleton.mp hn]
          exact Or.inr rfl

theorem hierarchizeOneGroup_children_ok (H : TokenHierarchy) (g : List HierarchicalToken)
    (status : HierarchizeStatus) (ins : Bool)
    (hblank : ins = true → H.tokenTypeAt status.hierarchyLevel = some TokenType.headingH1)
    (hchild : ∀ n ∈ g, treeNoH1L n.children = true)
    (htail : ∀ n ∈ g.tail, n.token.tokenType ≠ .headingH1) :
    ∀ n ∈ hierarchizeOneGroup H g status ins, treeNoH1L n.children = true := by
  intro n hn
  rw [hierarchizeOneGroup] at hn
  by_cases hge : g.isEmpty
  · rw [if_pos hge] at hn
    simp at hn
  · rw [if_neg hge] at hn
    cases htt : H.tokenTypeAt status.hierarchyLevel with
    | none =>
        rw [htt] at hn
        exact hchild n hn
    | some tt =>
        rw [htt] at hn
        cases g with
        | nil => simp at hn
        | cons token rest =>
            simp only [] at hn
            by_cases hty : token.token.tokenType = tt
            · rw [if_pos hty] at hn
              rcases List.mem_cons.mp hn with hh | hh
              · subst hh
                simp only [HierarchicalToken.children]
                rw [treeNoH1L_append]
                refine ⟨hchild token (List.mem_cons_self _ _), ?_⟩
                rw [treeNoH1L_iff]
                intro m hm
                have hmem := List.mem_of_mem_filter hm
                rw [treeNoH1_def]
                refine ⟨htail m (by simpa using hmem), ?_⟩
                exact hchild m (List.mem_cons_of_mem _ hmem)
              · exact hchild n (List.mem_cons_of_mem _ (List.mem_of_mem_filter hh))
            · rw [if_neg hty] at hn
              by_cases hins : ins = true
              · rw [hins, if_pos rfl] at hn
                have htteq : tt = TokenType.headingH1 := by
                  have h2 := (hblank hins).symm.trans htt
                  injection h2 with h2
                  exact h2.symm
                rw [List.mem_singleton.mp hn]
                simp only [HierarchicalToken.children]
                rw [treeNoH1L_iff]
                intro m hm
                rw [treeNoH1_def]
                rcases List.mem_cons.mp hm with hh | hh
                · subst hh
                  refine ⟨?_, hchild m (List.mem_cons_self _ _)⟩
                  rw [← htteq]
                  exact hty
                · exact ⟨htail m (by simpa using hh), hchild m hm⟩
              · rw [if_neg (by simpa using hins)] at hn
                exact hchild n hn

theorem hierarchizeOneGroup_flat (H : TokenHierarchy) (token : HierarchicalToken)
    (rest : List HierarchicalToken) (status : HierarchizeStatus) (tt : TokenType)
    (htt : H.tokenTypeAt status.hierarchyLevel = some tt)
    (hty : token.token.tokenType ≠ tt) :
    hierarchizeOneGroup H (token :: rest) status false = token :: rest := by
  rw [hierarchizeOneGroup]
  rw [if_neg (by simp)]
  rw [htt]
  simp only []
  rw [if_neg hty, if_neg (by simp)]

theorem hierRec_pass0_shape : ∀ (budget : Nat) (H : TokenHierarchy)
    (hts : List HierarchicalToken) (status : HierarchizeStatus),
    H.tokenTypeAt status.hierarchyLevel = some TokenType.headingH1 →
    H.position TokenType.headingH1 = 0 →
    (∀ n ∈ hts, treeNoH1L n.children = true) →
    ∀ n ∈ hierarchizeRecursiveOneHierarchyLevel budget H hts status true,
      (n.token.tokenType = TokenType.headingH1 ∨ n.token = Tok.blank) ∧
      treeNoH1L n.children = true := by
  intro budget H hts status htt hpos hchild
  have hgroup : ∀ g ∈ splitAtMarkdownElement hts TokenType.headingH1,
      ∀ n ∈ hierarchizeOneGroup H g status true,
        (n.token.tokenType = TokenType.headingH1 ∨ n.token = Tok.blank) ∧
        treeNoH1L n.children = true := by
    intro g hg n hn
    refine ⟨hierarchizeOneGroup_top_shape H g status TokenType.headingH1 htt hpos n hn, ?_⟩
    refine hierarchizeOneGroup_children_ok H g status true (fun _ => htt) ?_ ?_ n hn
    · intro m hm
      exact hchild m (splitAtMarkdownElement_mem hts TokenType.headingH1 g hg m hm)
    · intro m hm
      exact splitAtMarkdownElement_tail hts TokenType.headingH1 g hg m hm
  cases budget with
  | zero =>
      cases hts with
      | nil =>
          rw [hierRec_nil_eq]
          intro n hn
          simp at hn
      | cons a l =>
          rw [hierRec_zero_cons_eq H a l status true TokenType.headingH1 htt]
          intro n hn
          rcases List.mem_flatMap.mp hn with ⟨g, hg, hng⟩
          exact hgroup g hg n hng
  | succ b =>
      cases hts with
      | nil =>
          rw [hierRec_nil_eq]
          intro n hn
          simp at hn
      | cons a l =>
          rw [hierRec_succ_cons_eq b H a l status true TokenType.headingH1 htt]
          intro n hn
          rcases List.mem_map.mp hn with ⟨t, hmem, hmap⟩
          rcases List.mem_flatMap.mp hmem with ⟨g, hg, htg⟩
          have hbase := hgroup g hg t htg
          subst hmap
          cases hrd : status.oneRecursionLevelDeeper with
          | none => exact hbase
          | some nextStatus =>
              refine ⟨hbase.1, ?_⟩
              simp only [HierarchicalToken.children]
              exact hierRec_treeNoH1 b H t.children nextStatus false hbase.2

theorem hierRec_pass_shape : ∀ (budget : Nat) (H : TokenHierarchy)
    (hts : List HierarchicalToken) (status : HierarchizeStatus) (tt : TokenType),
    H.tokenTypeAt status.hierarchyLevel = some tt →
    tt ≠ TokenType.headingH1 →
    tt ≠ TokenType.blankline →
    (∀ n ∈ hts, (n.token.tokenType = TokenType.headingH1 ∨ n.token = Tok.blank) ∧
      treeNoH1L n.children = true) →
    ∀ n ∈ hierarchizeRecursiveOneHierarchyLevel budget H hts status false,
      (n.token.tokenType = TokenType.headingH1 ∨ n.token = Tok.blank) ∧
      treeNoH1L n.children = true := by
  intro budget H hts status tt htt hne1 hneb hshape
  have hno : ∀ n ∈ hts, n.token.tokenType ≠ tt := by
    intro n hn hcon
    rcases (hshape n hn).1 with hh | hh
    · exact hne1 (hcon ▸ hh ▸ rfl)
    · rw [hh] at hcon
      exact hneb (hcon ▸ rfl)
  cases hts with
  | nil =>
      rw [hierRec_nil_eq]
      intro n hn
      simp at hn
  | cons a l =>
      have hsplit : splitAtMarkdownElement (a :: l) tt = [a :: l] :=
        splitAtMarkdownElement_no_tt (a :: l) tt (by simp) hno
      have hflat : (splitAtMarkdownElement (a :: l) tt).flatMap
          (fun g => hierarchizeOneGroup H g status false) = a :: l := by
        rw [hsplit]
        simp only [List.flatMap_cons, List.flatMap_nil, List.append_nil]
        exact hierarchizeOneGroup_flat H a l status tt htt (hno a (List.mem_cons_self a l))
      cases budget with
      | zero =>
          rw [hierRec_zero_cons_eq H a l status false tt htt, hflat]
          exact hshape
      | succ b =>
          rw [hierRec_succ_cons_eq b H a l status false tt htt, hflat]
          intro n hn
          rcases List.mem_map.mp hn with ⟨t, hmem, hmap⟩
          have hbase := hshape t hmem
          subst hmap
          cases hrd : status.oneRecursionLevelDeeper with
          | none => exact hbase
          | some nextStatus =>
              refine ⟨hbase.1, ?_⟩
              simp only [HierarchicalToken.children]
              exact hierRec_treeNoH1 b H t.children nextStatus false hbase.2

theorem hierarchize_eq (ts : List Tok) :
    hierarchizeTokensUsingHeadings ts =
      hierarchizeRecursiveOneHierarchyLevel 10
        ⟨[TokenType.headingH1, TokenType.headingH2, TokenType.headingH3, TokenType.headingH4]⟩
        (hierarchizeRecursiveOneHierarchyLevel 10
          ⟨[TokenType.headingH1, TokenType.headingH2, TokenType.headingH3, TokenType.headingH4]⟩
          (hierarchizeRecursiveOneHierarchyLevel 10
            ⟨[TokenType.headingH1, TokenType.headingH2, TokenType.headingH3,
              TokenType.headingH4]⟩
            (hierarchizeRecursiveOneHierarchyLevel 10
              ⟨[TokenType.headingH1, TokenType.headingH2, TokenType.headingH3,
                TokenType.headingH4]⟩
              (ts.map HierarchicalToken.fromToken) ⟨4, 0, 10, 0⟩ true)
            ⟨4, 1, 10, 0⟩ false)
          ⟨4, 2, 10, 0⟩ false)
        ⟨4, 3, 10, 0⟩ false := rfl

theorem hierarchize_inv (ts : List Tok) :
    ∀ n ∈ hierarchizeTokensUsingHeadings ts,
      (n.token.tokenType = TokenType.headingH1 ∨ n.token = Tok.blank) ∧
      treeNoH1L n.children = true := by
  rw [hierarchize_eq]
  have h0 : ∀ n ∈ List.map HierarchicalToken.fromToken ts, treeNoH1L n.children = true := by
    intro n hn
    rcases List.mem_map.mp hn with ⟨t, _, hmap⟩
    subst hmap
    rfl
  have h1 := hierRec_pass0_shape 10
    ⟨[TokenType.headingH1, TokenType.headingH2, TokenType.headingH3, TokenType.headingH4]⟩
    (ts.map HierarchicalToken.fromToken) ⟨4, 0, 10, 0⟩ rfl rfl h0
  have h2 := hierRec_pass_shape 10
    ⟨[TokenType.headingH1, TokenType.headingH2, TokenType.headingH3, TokenType.headingH4]⟩
    _ ⟨4, 1, 10, 0⟩ TokenType.headingH2 rfl
    (by intro hcon; exact TokenType.noConfusion hcon)
    (by intro hcon; exact TokenType.noConfusion hcon) h1
  have h3 := hierRec_pass_shape 10
    ⟨[TokenType.headingH1, TokenType.headingH2, TokenType.headingH3, TokenType.headingH4]⟩
    _ ⟨4, 2, 10, 0⟩ TokenType.headingH3 rfl
    (by intro hcon; exact TokenType.noConfusion hcon)
    (by intro hcon; exact TokenType.noConfusion hcon) h2
  exact hierRec_pass_shape 10
    ⟨[TokenType.headingH1, TokenType.headingH2, TokenType.headingH3, TokenType.headingH4]⟩
    _ ⟨4, 3, 10, 0⟩ TokenType.headingH4 rfl
    (by intro hcon; exact TokenType.noConfusion hcon)
    (by intro hcon; exact TokenType.noConfusion hcon) h3

theorem secInfo_st_ne_h1 : ∀ (t : Tok), t.tokenType ≠ TokenType.headingH1 →
    ∀ st els, secInfo t = some (st, els) → st ≠ SectionType.h1 := by
  intro t ht st els hs
  cases t with
  | headingH1 a => exact absurd rfl ht
  | headingH2 a =>
      injection hs with hs
      intro hcon
      rw [hcon] at hs
      exact SectionType.noConfusion (congrArg Prod.fst hs)
  | headingH3 a =>
      injection hs with hs
      intro hcon
      rw [hcon] at hs
      exact SectionType.noConfusion (congrArg Prod.fst hs)
  | headingH4 a =>
      injection hs with hs
      intro hcon
      rw [hcon] at hs
      exact SectionType.noConfusion (congrArg Prod.fst hs)
  | blank => exact Option.noConfusion hs
  | hRule => exact Option.noConfusion hs
  | newline => exact Option.noConfusion hs
  | blockRef a => exact Option.noConfusion hs
  | email a => exact Option.noConfusion hs
  | hashtag a => exact Option.noConfusion hs
  | latex a => exact Option.noConfusion hs
  | link a => exact Option.noConfusion hs
  | rawHyperlink a => exact Option.noConfusion hs
  | singleBacktick a => exact Option.noConfusion hs
  | tag a => exact Option.noConfusion hs
  | text a => exact Option.noConfusion hs
  | tripleBacktick a => exact Option.noConfusion hs
  | date a => exact Option.noConfusion hs
  | blockQuote a => exact Option.noConfusion hs
  | bold a => exact Option.noConfusion hs
  | highlight a => exact Option.noConfusion hs
  | italic a => exact Option.noConfusion hs
  | strike a => exact Option.noConfusion hs
  | attr a b => exact Option.noConfusion hs
  | image a b => exact Option.noConfusion hs
  | markdownExternalLink a b => exact Option.noConfusion hs
  | markdownInternalLink a b => exact Option.noConfusion hs
  | task a b => exact Option.noConfusion hs

theorem tokenType_h1_cases : ∀ (t : Tok), t.tokenType = TokenType.headingH1 →
    ∃ els, t = Tok.headingH1 els := by
  intro t ht
  cases t with
  | headingH1 a => exact ⟨a, rfl⟩
  | blank => exact TokenType.noConfusion ht
  | hRule => exact TokenType.noConfusion ht
  | newline => exact TokenType.noConfusion ht
  | blockRef a => exact TokenType.noConfusion ht
  | email a => exact TokenType.noConfusion ht
  | hashtag a => exact TokenType.noConfusion ht
  | latex a => exact TokenType.noConfusion ht
  | link a => exact TokenType.noConfusion ht
  | rawHyperlink a => exact TokenType.noConfusion ht
  | singleBacktick a => exact TokenType.noConfusion ht
  | tag a => exact TokenType.noConfusion ht
  | text a => exact TokenType.noConfusion ht
  | tripleBacktick a => exact TokenType.noConfusion ht
  | date a => exact TokenType.noConfusion ht
  | blockQuote a => exact TokenType.noConfusion ht
  | bold a => exact TokenType.noConfusion ht
  | highlight a => exact TokenType.noConfusion ht
  | italic a => exact TokenType.noConfusion ht
  | strike a => exact TokenType.noConfusion ht
  | headingH2 a => exact TokenType.noConfusion ht
  | headingH3 a => exact TokenType.noConfusion ht
  | headingH4 a => exact TokenType.noConfusion ht
  | attr a b => exact TokenType.noConfusion ht
  | image a b => exact TokenType.noConfusion ht
  | markdownExternalLink a b => exact TokenType.noConfusion ht
  | markdownInternalLink a b => exact TokenType.noConfusion ht
  | task a b => exact TokenType.noConfusion ht

mutual

theorem matL : ∀ (hts : List HierarchicalToken) (d : Date),
    treeNoH1L hts = true → ∀ ss,
    sectionsFromHierarchizedTokens hts (some d) = Except.ok ss →
    inheritOkL d ss = true
  | [], d, _, ss, h => by
      rw [sectionsFromHierarchizedTokens] at h
      injection h with h
      rw [← h]
      rfl
  | t :: rest, d, hno, ss, h => by
      rw [sectionsFromHierarchizedTokens] at h
      have hnoT : treeNoH1 t = true :=
        (treeNoH1L_iff _).mp hno t (List.mem_cons_self _ _)
      have hnoR : treeNoH1L rest = true := by
        rw [treeNoH1L_iff]
        intro m hm
        exact (treeNoH1L_iff _).mp hno m (List.mem_cons_of_mem _ hm)
      cases hsn : sectionFromNode t (some d) with
      | error e =>
          rw [hsn] at h
          exact Except.noConfusion h
      | ok os =>
          rw [hsn] at h
          cases os with
          | none => exact matL rest d hnoR ss h
          | some s =>
              cases hrest : sectionsFromHierarchizedTokens rest (some d) with
              | error e =>
                  rw [hrest] at h
                  exact Except.noConfusion h
              | ok ss2 =>
                  rw [hrest] at h
                  injection h with h
                  rw [← h, inheritOkL, Bool.and_eq_true]
                  exact ⟨matN t d hnoT (some s) hsn s rfl,
                         matL rest d hnoR ss2 hrest⟩

theorem matN : ∀ (n : HierarchicalToken) (d : Date),
    treeNoH1 n = true → ∀ os,
    sectionFromNode n (some d) = Except.ok os →
    ∀ s, os = some s → inheritOk d s = true
  | .mk token children, d, hno, os, h, s, hs => by
      rw [sectionFromNode] at h
      have hparts := (treeNoH1_def (.mk token children)).mp hno
      cases hsi : secInfo token with
      | none =>
          rw [hsi] at h
          injection h with h
          rw [← h] at hs
          exact Option.noConfusion hs
      | some p =>
          obtain ⟨st, els⟩ := p
          rw [hsi] at h
          simp only [] at h
          cases hrest : sectionsFromHierarchizedTokens children (some d) with
          | error e =>
              rw [hrest] at h
              exact Except.noConfusion h
          | ok subs =>
              rw [hrest] at h
              injection h with h
              rw [← h] at hs
              injection hs with hs
              rw [← hs, inheritOk, Bool.and_eq_true, Bool.and_eq_true]
              refine ⟨⟨?_, ?_⟩, ?_⟩
              · exact beq_self_eq_true d
              · rw [Bool.not_eq_true', beq_eq_false_iff_ne]
                exact secInfo_st_ne_h1 token
                  (by simpa [HierarchicalToken.token] using hparts.1) st els hsi
              · exact matL children d
                  (by simpa [HierarchicalToken.children] using hparts.2) subs hrest

end

theorem sectionFromNode_top_ok : ∀ (token : Tok) (children : List HierarchicalToken),
    (token.tokenType = TokenType.headingH1 ∨ token = Tok.blank) →
    treeNoH1L children = true →
    ∀ s, sectionFromNode (.mk token children) none = Except.ok (some s) →
    topDatedOk s = true := by
  intro token children hsh hch s h
  rcases hsh with hh1 | hblank
  · obtain ⟨els, rfl⟩ := tokenType_h1_cases token hh1
    rw [sectionFromNode] at h
    rw [show secInfo (Tok.headingH1 els) = some (SectionType.h1, els) from rfl] at h
    simp only [] at h
    cases htd : titleDates els with
    | nil =>
        rw [htd] at h
        exact Except.noConfusion h
    | cons d tl =>
        cases tl with
        | nil =>
            rw [htd] at h
            simp only [] at h
            cases hrest : sectionsFromHierarchizedTokens children (some d) with
            | error e =>
                rw [hrest] at h
                exact Except.noConfusion h
            | ok subs =>
                rw [hrest] at h
                injection h with h
                injection h with h
                rw [← h, topDatedOk, Bool.and_eq_true, Bool.and_eq_true]
                refine ⟨⟨rfl, ?_⟩, ?_⟩
                · rw [show titleDatesOfTok (Tok.headingH1 els) = titleDates els from rfl, htd]
                  exact beq_self_eq_true [d]
                · exact matL children d hch subs hrest
        | cons d2 tl2 =>
            rw [htd] at h
            exact Except.noConfusion h
  · subst hblank
    rw [sectionFromNode] at h
    rw [show secInfo Tok.blank = none from rfl] at h
    injection h with h
    exact Option.noConfusion h

theorem matTop : ∀ (hts : List HierarchicalToken),
    (∀ n ∈ hts, (n.token.tokenType = TokenType.headingH1 ∨ n.token = Tok.blank) ∧
      treeNoH1L n.children = true) →
    ∀ ss, sectionsFromHierarchizedTokens hts none = Except.ok ss →
    topDatedOkL ss = true := by
  intro hts
  induction hts with
  | nil =>
      intro _ ss h
      rw [sectionsFromHierarchizedTokens] at h
      injection h with h
      rw [← h]
      rfl
  | cons t rest ih =>
      intro hsh ss h
      rw [sectionsFromHierarchizedTokens] at h
      have hshT := hsh t (List.mem_cons_self _ _)
      have hshR : ∀ n ∈ rest,
          (n.token.tokenType = TokenType.headingH1 ∨ n.token = Tok.blank) ∧
          treeNoH1L n.children = true :=
        fun n hn => hsh n (List.mem_cons_of_mem _ hn)
      cases hsn : sectionFromNode t none with
      | error e =>
          rw [hsn] at h
          exact Except.noConfusion h
      | ok os =>
          rw [hsn] at h
          cases os with
          | none => exact ih hshR ss h
          | some s =>
              cases hrest : sectionsFromHierarchizedTokens rest none with
              | error e =>
                  rw [hrest] at h
                  exact Except.noConfusion h
              | ok ss2 =>
                  rw [hrest] at h
                  injection h with h
                  rw [← h, topDatedOkL, Bool.and_eq_true]
                  obtain ⟨token, children⟩ := t
                  refine ⟨?_, ih hshR ss2 hrest⟩
                  refine sectionFromNode_top_ok token children ?_ ?_ s hsn
                  · simpa [HierarchicalToken.token] using hshT.1
                  · simpa [HierarchicalToken.children] using hshT.2

mutual

theorem errL : ∀ (hts : List HierarchicalToken) (pd : Option Date) (e : MDPErr),
    sectionsFromHierarchizedTokens hts pd = Except.error e → sectionErrShape e
  | [], _, e, h => by
      rw [sectionsFromHierarchizedTokens] at h
      exact Except.noConfusion h
  | t :: rest, pd, e, h => by
      rw [sectionsFromHierarchizedTokens] at h
      cases hsn : sectionFromNode t pd with
      | error e2 =>
          rw [hsn] at h
          injection h with h
          rw [← h]
          exact errN t pd e2 hsn
      | ok os =>
          rw [hsn] at h
          cases os with
          | none => exact errL rest pd e h
          | some s =>
              cases hrest : sectionsFromHierarchizedTokens rest pd with
              | error e2 =>
                  rw [hrest] at h
                  injection h with h
                  rw [← h]
                  exact errL rest pd e2 hrest
              | ok ss2 =>
                  rw [hrest] at h
                  exact Except.noConfusion h

theorem errN : ∀ (n : HierarchicalToken) (pd : Option Date) (e : MDPErr),
    sectionFromNode n pd = Except.error e → sectionErrShape e
  | .mk token children, pd, e, h => by
      rw [sectionFromNode] at h
      cases hsi : secInfo token with
      | none =>
          rw [hsi] at h
          exact Except.noConfusion h
      | some p =>
          obtain ⟨st, els⟩ := p
          rw [hsi] at h
          cases pd with
          | some d =>
              simp only [] at h
              cases hrest : sectionsFromHierarchizedTokens children (some d) with
              | error e2 =>
                  rw [hrest] at h
                  injection h with h
                  rw [← h]
                  exact errL children (some d) e2 hrest
              | ok subs =>
                  rw [hrest] at h
                  exact Except.noConfusion h
          | none =>
              simp only [] at h
              cases htd : titleDates els with
              | nil =>
                  rw [htd] at h
                  injection h with h
                  refine ⟨token, ?_, Or.inl ⟨?_, ?_⟩⟩
                  · rw [hsi]
                    rfl
                  · rw [show titleDatesOfTok token
                        = match secInfo token with
                          | some (_, els2) => titleDates els2
                          | none => [] from rfl, hsi]
                    exact htd
                  · exact h.symm
              | cons d tl =>
                  cases tl with
                  | nil =>
                      rw [htd] at h
                      simp only [] at h
                      cases hrest : sectionsFromHierarchizedTokens children (some d) with
                      | error e2 =>
                          rw [hrest] at h
                          injection h with h
                          rw [← h]
                          exact errL children (some d) e2 hrest
                      | ok subs =>
                          rw [hrest] at h
                          exact Except.noConfusion h
                  | cons d2 tl2 =>
                      rw [htd] at h
                      injection h with h
                      refine ⟨token, ?_, Or.inr ⟨?_, ?_⟩⟩
                      · rw [hsi]
                        rfl
                      · rw [show titleDatesOfTok token
                            = match secInfo token with
                              | some (_, els2) => titleDates els2
                              | none => [] from rfl, hsi]
                        show 2 ≤ (titleDates els).length
                        rw [htd]
                        simp
                      · exact h.symm

end

theorem errC3 : ∀ (hts : List HierarchicalToken) (n : HierarchicalToken),
    n ∈ hts → ∀ st els, secInfo n.token = some (st, els) →
    (titleDates els).length ≠ 1 →
    ∃ e, sectionsFromHierarchizedTokens hts none = Except.error e := by
  intro hts
  induction hts with
  | nil =>
      intro n hn
      simp at hn
  | cons t rest ih =>
      intro n hn st els hsi hlen
      rcases List.mem_cons.mp hn with heq | hmem
      · subst heq
        obtain ⟨token, children⟩ := n
        simp only [HierarchicalToken.token] at hsi
        cases hsn : sectionFromNode (.mk token children) none with
        | error e =>
            refine ⟨e, ?_⟩
            rw [sectionsFromHierarchizedTokens, hsn]
        | ok os =>
            exfalso
            rw [sectionFromNode, hsi] at hsn
            simp only [] at hsn
            cases htd : titleDates els with
            | nil =>
                rw [htd] at hsn
                exact Except.noConfusion hsn
            | cons d tl =>
                cases tl with
                | nil =>
                    rw [htd] at hlen
                    simp at hlen
                | cons d2 tl2 =>
                    rw [htd] at hsn
                    exact Except.noConfusion hsn
      · cases hsn : sectionFromNode t none with
        | error e =>
            refine ⟨e, ?_⟩
            rw [sectionsFromHierarchizedTokens, hsn]
        | ok os =>
            obtain ⟨e, he⟩ := ih n hmem st els hsi hlen
            cases os with
            | none =>
                refine ⟨e, ?_⟩
                rw [sectionsFromHierarchizedTokens, hsn]
                exact he
            | some s =>
                refine ⟨e, ?_⟩
                rw [sectionsFromHierarchizedTokens, hsn, he]

/-- C1: for every token list accepted by `sections_from_tokens` the produced
sections all carry the right date — each top-level section is an `H1` whose
date is the unique `Date` token among its title elements and every
descendant section inherits that date (and no descendant is itself an
`H1`, so the nearest enclosing `H1` is the top one); every failure of the
builder is an `MDPSyntaxError` naming a heading title that either has no
date ("doesn\x27t contain a date.") or more than one ("does contain more
than one date."); and a top-level heading of the hierarchized forest whose
title does not contain exactly one `Date` forces the builder to fail. -/
theorem c1_section_dates (ts : List Tok) :
    (∀ ss, sectionsFromTokens ts = Except.ok ss → topDatedOkL ss = true) ∧
    (∀ e, sectionsFromTokens ts = Except.error e → sectionErrShape e) ∧
    (∀ n ∈ hierarchizeTokensUsingHeadings ts, ∀ st els,
      secInfo n.token = some (st, els) → (titleDates els).length ≠ 1 →
      ∃ e, sectionsFromTokens ts = Except.error e) := by
  refine ⟨?_, ?_, ?_⟩
  · intro ss h
    rw [sectionsFromTokens] at h
    exact matTop (hierarchizeTokensUsingHeadings ts) (hierarchize_inv ts) ss h
  · intro e h
    rw [sectionsFromTokens] at h
    exact errL (hierarchizeTokensUsingHeadings ts) none e h
  · intro n hn st els hsi hlen
    obtain ⟨e, he⟩ := errC3 (hierarchizeTokensUsingHeadings ts) n hn st els hsi hlen
    refine ⟨e, ?_⟩
    rw [sectionsFromTokens]
    exact he

/-- Witness for `c1_section_dates`: on a concrete document with a dated `H1`
title, a body line and an `H2` subsection, the builder succeeds and the
produced sections satisfy the date invariant. -/
theorem c1_section_dates_witness :
    topDatedOkL
      [Section.mk (Tok.headingH1 [Tok.text "A ", Tok.date ⟨2024, 1, 15⟩]) SectionType.h1
        [] ⟨2024, 1, 15⟩ [Tok.text "body"]
        [Section.mk (Tok.headingH2 [Tok.text "Sub"]) SectionType.h2 []
          ⟨2024, 1, 15⟩ [] []]] = true :=
  (c1_section_dates
    [Tok.headingH1 [Tok.text "A ", Tok.date ⟨2024, 1, 15⟩], Tok.text "body",
     Tok.headingH2 [Tok.text "Sub"]]).1
    [Section.mk (Tok.headingH1 [Tok.text "A ", Tok.date ⟨2024, 1, 15⟩]) SectionType.h1
      [] ⟨2024, 1, 15⟩ [Tok.text "body"]
      [Section.mk (Tok.headingH2 [Tok.text "Sub"]) SectionType.h2 []
        ⟨2024, 1, 15⟩ [] []]] rfl
